import Mathlib

/-!
# Verification of the pyspur backend fragment

This file gives a shallow embedding, in Lean 4, of the three source files of
the repository fragment:

* `backend/app/evals/evaluator.py` — the benchmark evaluation harness
  (YAML task-config loading with includes, answer extraction, answer
  evaluation, dataset evaluation and multi-subset orchestration);
* `backend/app/api/node_management.py` — the node-type schema endpoint;
* `backend/node_types/llm.py` — the LLM utility library (message
  construction, batch embedding computation).

Python strings are modelled as Lean `String` (with character-level helpers on
`List Char` where the code does character-level work), Python dicts as
association lists with last-write-wins update, Python floats as exact
rationals with explicit infinity/NaN markers, and raising code as
`Except`/`Option` results.  External boundaries (the OpenAI client, HuggingFace
datasets, jinja2 templates, the regex tables of the sibling module
`app/evals/common.py`, and the node factory) are passed in as explicit
function or data parameters, so every theorem quantifies over their behavior.
-/

set_option maxHeartbeats 1000000

namespace PySpur

/-! ## Python dictionaries as association lists

A Python `dict` is modelled as a `List (key × value)`.  `dlookup` is key
lookup (`d[k]` / `k in d`), `derase` is `del d[k]`, `dinsert` is
`d[k] = v` (replacing in place if the key exists, appending otherwise,
matching Python's insertion-order semantics), and `dupdate` is
`d1.update(d2)` (every pair of `d2` written into `d1`, later pairs last). -/

/-- Lookup in an association list: the value of the first pair whose key
matches, like Python `d[k]`. -/
def dlookup {β : Type} (d : List (String × β)) (k : String) : Option β :=
  (d.find? (fun kv => kv.1 = k)).map (·.2)

/-- Key-membership test, like Python `k in d`. -/
def dhasKey {β : Type} (d : List (String × β)) (k : String) : Bool :=
  d.any (fun kv => kv.1 = k)

/-- Remove a key, like Python `del d[k]` (removes every pair with that key;
a genuine dict holds each key at most once). -/
def derase {β : Type} (d : List (String × β)) (k : String) : List (String × β) :=
  d.filter (fun kv => ¬ kv.1 = k)

/-- Write one key, like Python `d[k] = v`: replace the value in place when
the key is present, append the pair otherwise. -/
def dinsert {β : Type} (d : List (String × β)) (k : String) (v : β) :
    List (String × β) :=
  if dhasKey d k then
    d.map (fun kv => if kv.1 = k then (kv.1, v) else kv)
  else
    d ++ [(k, v)]

/-- Merge, like Python `d1.update(d2)`: every pair of `d2` written into `d1`
in order, so for duplicate keys the later pair of `d2` wins. -/
def dupdate {β : Type} (d1 d2 : List (String × β)) : List (String × β) :=
  d2.foldl (fun acc kv => dinsert acc kv.1 kv.2) d1

/-! ## YAML task-config loading (`load_yaml_config`, evaluator.py)

A parsed YAML document is an association list from string keys to `YVal`
values.  The file system (`open` + `yaml.full_load`) is a parameter
`fs : String → Option YamlDict`; `fs p = none` models both "file does not
exist" (`os.path.isfile` false) and "open/parse raises".  The `!function`
constructor only affects how scalar values are built, never the
include/merge logic, so `mode` does not appear in the model.  Python's
unbounded recursion over includes is modelled with a fuel parameter; the
result is `none` when loading raises (missing file, non-path `include`
value) or when fuel runs out (a cyclic include, which in Python dies with
`RecursionError`). -/

/-- A YAML scalar/sequence value as used by the task configs: a number, a
string, or a list of strings (the only shapes the include logic inspects). -/
inductive YVal where
  | num (n : Int)
  | str (s : String)
  | strList (ps : List String)
  deriving DecidableEq, Repr

/-- A parsed YAML mapping. -/
abbrev YamlDict := List (String × YVal)

/-- `os.path.dirname`: the prefix before the last `/`, or `""` when the path
has no `/`. -/
def dirname (p : String) : String :=
  let rev := p.toList.reverse
  if rev.contains '/' then
    ((rev.dropWhile (fun c => ¬ c = '/')).drop 1).reverse.asString
  else ""

/-- `os.path.join(d, p)` for the shapes the loader produces: joining with an
empty directory gives the path back. -/
def joinPath (d p : String) : String :=
  if d = "" then p else d ++ "/" ++ p

/-- The per-include loop of `load_yaml_config`: for each path in the (already
reversed) include list, resolve it against the file system (falling back to
the config's own directory when the literal path is no file), load it with
the given loader, and fold the results together with `dict.update`.  Any
include that fails to load aborts the whole load (the source catches the
exception only to re-raise it). -/
def loadIncludes (fs : String → Option YamlDict) (loadF : String → Option YamlDict)
    (yaml_dir : String) : List String → YamlDict → Option YamlDict
  | [], acc => some acc
  | p :: ps, acc =>
    let resolved := if (fs p).isSome then p else joinPath yaml_dir p
    match loadF resolved with
    | none => none
    | some inc => loadIncludes fs loadF yaml_dir ps (dupdate acc inc)

/-- `load_yaml_config` (evaluator.py, lines 118–161), for a load driven by a
`yaml_path` (the recursive calls always pass a path).  Parses the document at
`yaml_path`; when it holds an `include` key, deletes that key, wraps a lone
string path into a one-element list, **reverses** the list, loads every
included file recursively and merges them into an empty dict in the reversed
order with `dict.update`, and finally updates with the root document's own
remaining keys. -/
def load_yaml_config (fs : String → Option YamlDict) : Nat → String → Option YamlDict
  | 0, _ => none
  | fuel + 1, yaml_path =>
    match fs yaml_path with
    | none => none
    | some cfg =>
      let yaml_dir := dirname yaml_path
      match dlookup cfg "include" with
      | none => some cfg
      | some v =>
        let cfg' := derase cfg "include"
        match v with
        | .num _ => none
        | .str s =>
          match loadIncludes fs (load_yaml_config fs fuel) yaml_dir ([s].reverse) [] with
          | none => none
          | some fin => some (dupdate fin cfg')
        | .strList ps =>
          match loadIncludes fs (load_yaml_config fs fuel) yaml_dir ps.reverse [] with
          | none => none
          | some fin => some (dupdate fin cfg')

/-- Concrete file system for the include-precedence example: a root document
with `include: [a.yaml, b.yaml]` and no `x` of its own, `a.yaml` defining
`x: 1` and `b.yaml` defining `x: 2`. -/
def c1fs : String → Option YamlDict := fun p =>
  if p = "root.yaml" then some [("include", .strList ["a.yaml", "b.yaml"]), ("y", .num 0)]
  else if p = "a.yaml" then some [("x", .num 1)]
  else if p = "b.yaml" then some [("x", .num 2)]
  else none

/-- Concrete file system for the C10 witness, with a two-level include
chain. -/
def c10fs : String → Option YamlDict := fun p =>
  if p = "top.yaml" then some [("include", .str "mid.yaml"), ("k", .num 7)]
  else if p = "mid.yaml" then some [("include", .strList ["leaf.yaml"]), ("m", .num 8)]
  else if p = "leaf.yaml" then some [("n", .num 9)]
  else none

/-! ## Number extraction (`find_numbers`, `find_number`, evaluator.py)

Python strings are manipulated here at the character level, so these
functions work on `List Char` (a Python `str` is exactly its character
sequence).  `re.findall(r"-?[\d,]*\.?\d+", x)` is embedded as a direct
backtracking matcher for that one pattern: at each position, `-?` greedily
takes a leading minus, `[\d,]*` greedily takes digits and commas and then
backtracks from the right until `\.?\d+` (an optional dot followed by a
maximal nonempty digit run) matches; scanning restarts after each match as
`findall` does.  `x.split(sep)[-1]` is embedded as repeatedly dropping
through the first occurrence of the separator. -/

/-- First occurrence of `m` in `x`: `some (p, s)` with `x = p ++ m ++ s` and
`p` shortest, `none` when `m` does not occur (`m in x` is false). -/
def splitFirst (m : List Char) : List Char → Option (List Char × List Char)
  | [] => if m.isPrefixOf ([] : List Char) then some ([], []) else none
  | c :: rest =>
    if m.isPrefixOf (c :: rest) then some ([], (c :: rest).drop m.length)
    else (splitFirst m rest).map (fun pr => (c :: pr.1, pr.2))

/-- Python substring membership `m in x`. -/
def occursSub (m x : List Char) : Bool :=
  (splitFirst m x).isSome

/-- Iterate `splitFirst`, keeping the suffix, until the separator no longer
occurs: this is the last piece of Python's `x.split(m)`. -/
def afterLastAux (m : List Char) : Nat → List Char → List Char
  | 0, x => x
  | fuel + 1, x =>
    match splitFirst m x with
    | none => x
    | some pr => afterLastAux m fuel pr.2

/-- The last piece of Python's `x.split(m)` (for nonempty `m`). -/
def pySplitLast (m x : List Char) : List Char :=
  afterLastAux m x.length x

/-- Maximal digit prefix and the rest (`\d+` greedy). -/
def takeDigits (x : List Char) : List Char × List Char :=
  (x.takeWhile Char.isDigit, x.dropWhile Char.isDigit)

/-- Match `\.?\d+` at the head of `x`: an optional dot (only taken when a
digit follows it) and then a maximal nonempty digit run. -/
def matchDotDigits : List Char → Option (List Char × List Char)
  | [] => none
  | '.' :: rest =>
    match rest with
    | c :: _ =>
      if c.isDigit then
        let pr := takeDigits rest
        some ('.' :: pr.1, pr.2)
      else none
    | [] => none
  | c :: rest =>
    if c.isDigit then
      let pr := takeDigits (c :: rest)
      some (pr.1, pr.2)
    else none

/-- Backtracking over the greedy `[\d,]*` run (held reversed in the first
argument): try `\.?\d+` at the current point, and on failure give one run
character back to the input, from the right. -/
def bodyBTAux : List Char → List Char → Option (List Char × List Char)
  | [], rest =>
    match matchDotDigits rest with
    | some pr => some (pr.1, pr.2)
    | none => none
  | c :: revRun, rest =>
    match matchDotDigits rest with
    | some pr => some ((c :: revRun).reverse ++ pr.1, pr.2)
    | none => bodyBTAux revRun (c :: rest)

/-- Match `[\d,]*\.?\d+` at the head of `x`. -/
def matchBody (x : List Char) : Option (List Char × List Char) :=
  let run := x.takeWhile (fun c => c.isDigit || c = ',')
  bodyBTAux run.reverse (x.drop run.length)

/-- Match `-?[\d,]*\.?\d+` at the head of `x` (greedy `-?`: with the minus
when the body matches after it, otherwise without). -/
def matchNum : List Char → Option (List Char × List Char)
  | '-' :: rest =>
    (match matchBody rest with
     | some pr => some ('-' :: pr.1, pr.2)
     | none => matchBody ('-' :: rest))
  | x => matchBody x

/-- The scan loop of `re.findall`: try the pattern at each position from the
left, jumping over each match (every match is nonempty). -/
def findNumbersAux : Nat → List Char → List (List Char)
  | 0, _ => []
  | _ + 1, [] => []
  | fuel + 1, c :: rest =>
    match matchNum (c :: rest) with
    | some pr => pr.1 :: findNumbersAux fuel pr.2
    | none => findNumbersAux fuel rest

/-- `find_numbers` (evaluator.py, lines 26–32): all matches of
`-?[\d,]*\.?\d+` in `x`, left to right. -/
def find_numbers (x : List Char) : List (List Char) :=
  findNumbersAux x.length x

/-- The literal answer marker of `find_number`. -/
def answerDelim : List Char := "The answer is".toList

/-- `find_number` (evaluator.py, lines 35–46): when the marker occurs, the
first number of the last `split` piece if there is one; otherwise the last
number anywhere in the string; otherwise the empty string. -/
def find_number (x : List Char) : List Char :=
  let fromMarker : Option (List Char) :=
    if occursSub answerDelim x then
      match find_numbers (pySplitLast answerDelim x) with
      | n :: _ => some n
      | [] => none
    else none
  match fromMarker with
  | some n => n
  | none =>
    match (find_numbers x).getLast? with
    | some n => n
    | none => []

/-- `maybe_remove_comma` (evaluator.py, lines 49–51): `x.replace(",", "")`. -/
def maybe_remove_comma (x : List Char) : List Char :=
  x.filter (fun c => ¬ c = ',')

/-- Python `str.strip()`: whitespace removed from both ends. -/
def pyStrip (x : List Char) : List Char :=
  ((x.dropWhile Char.isWhitespace).reverse.dropWhile Char.isWhitespace).reverse

/-- Python `str.lower()`. -/
def pyLower (x : List Char) : List Char :=
  x.map Char.toLower

/-- Python `str.upper()`. -/
def pyUpper (x : List Char) : List Char :=
  x.map Char.toUpper

/-! ## Python floats and `float(str)` parsing

`evaluate_answer`'s `numeric` branch calls Python `float()` on both strings.
A Python float value is modelled exactly: a rational held as an integer
numerator over a power-of-ten denominator (decimal literals are finite, so
exact), a signed infinity, or NaN; `==` on floats is rational equality
(cross-multiplication), with NaN unequal to everything including itself.
(Rounding a decimal literal to binary is not modelled: two literals that
differ only below double precision are distinguished here.) -/

/-- A value of Python `float` as produced by `float(str)`: `finite num den`
denotes the rational `num / den` with `den` a positive power of ten. -/
inductive PyFloat where
  | finite (num : Int) (den : Nat)
  | inf (pos : Bool)
  | nan
  deriving DecidableEq, Repr

/-- Python `==` on floats: rational equality by cross-multiplication, `nan`
unequal to everything, infinities equal when their signs agree. -/
def pyFloatEq : PyFloat → PyFloat → Bool
  | .finite n1 d1, .finite n2 d2 => n1 * (d2 : Int) = n2 * (d1 : Int)
  | .inf a, .inf b => a = b
  | _, _ => false

/-- The natural number denoted by a run of decimal digits. -/
def digitsToNat (ds : List Char) : Nat :=
  ds.foldl (fun n c => n * 10 + (c.toNat - '0'.toNat)) 0

/-- Parse the unsigned numeric part of a Python float literal:
`digits [. digits] [(e|E) [+|-] digits]`, with at least one digit in the
mantissa and nothing left over; the result is numerator and power-of-ten
denominator. -/
def parseUnsigned (x : List Char) : Option (Nat × Nat) :=
  let ip := x.takeWhile Char.isDigit
  let rest1 := x.drop ip.length
  let fp :=
    match rest1 with
    | '.' :: r => r.takeWhile Char.isDigit
    | _ => []
  let rest2 :=
    match rest1 with
    | '.' :: r => r.drop (r.takeWhile Char.isDigit).length
    | _ => rest1
  if ip.length + fp.length = 0 then none
  else
    let num := digitsToNat (ip ++ fp)
    let den := 10 ^ fp.length
    match rest2 with
    | [] => some (num, den)
    | e :: r =>
      if e = 'e' ∨ e = 'E' then
        let esign : Bool :=
          match r with
          | '-' :: _ => false
          | _ => true
        let r2 :=
          match r with
          | '+' :: r2 => r2
          | '-' :: r2 => r2
          | _ => r
        let ed := r2.takeWhile Char.isDigit
        if ed.length = 0 ∨ ¬ (r2.drop ed.length) = [] then none
        else
          some (if esign then (num * 10 ^ digitsToNat ed, den)
                else (num, den * 10 ^ digitsToNat ed))
      else none

/-- Python `float(s)`: strip whitespace, take an optional sign, then either
`inf`/`infinity`/`nan` (case-insensitive) or a numeric literal; `none` models
the `ValueError` on anything else. -/
def parseFloat (s : List Char) : Option PyFloat :=
  let t := pyStrip s
  let pos : Bool :=
    match t with
    | '-' :: _ => false
    | _ => true
  let body :=
    match t with
    | '+' :: r => r
    | '-' :: r => r
    | _ => t
  let lower := pyLower body
  if lower = "inf".toList ∨ lower = "infinity".toList then some (.inf pos)
  else if lower = "nan".toList then some .nan
  else
    match parseUnsigned body with
    | some nd => some (.finite (if pos then (nd.1 : Int) else -(nd.1 : Int)) nd.2)
    | none => none

/-! ## Answer evaluation (`evaluate_answer`, `check_equality`, evaluator.py)

The `math` branch asks the model itself (`check_equality` renders
`EQUALITY_TEMPLATE`, calls `call_model` and accepts a trimmed,
case-insensitive `"yes"`).  The model call and the template (the template
lives in the out-of-fragment module `app/evals/common.py`) are parameters;
`normalize_extracted_answer` (same module) likewise. -/

/-- `check_equality` (evaluator.py, lines 174–187): format the equality
prompt, call the model, accept exactly a trimmed lowercase `"yes"`. -/
def check_equality (respond : List Char → List Char)
    (equalityPrompt : List Char → List Char → List Char)
    (expr1 expr2 : List Char) : Bool :=
  pyStrip (pyLower (respond (equalityPrompt expr1 expr2))) = "yes".toList

/-- `evaluate_answer` (evaluator.py, lines 237–261): dispatch on
`evaluation.get("method", "default").lower()`. -/
def evaluate_answer (respond : List Char → List Char)
    (equalityPrompt : List Char → List Char → List Char)
    (normalize : List Char → List Char)
    (predicted_answer ground_truth_answer : List Char)
    (evaluation : List (String × String)) : Bool :=
  let method := (pyLower ((dlookup evaluation "method").getD "default").toList).asString
  if method = "numeric" then
    match parseFloat predicted_answer, parseFloat ground_truth_answer with
    | some a, some b => pyFloatEq a b
    | _, _ => predicted_answer = ground_truth_answer
  else if method = "exact_match" then
    pyLower (pyStrip predicted_answer) = pyLower (pyStrip ground_truth_answer)
  else if method = "mcq" then
    pyUpper (pyStrip (normalize predicted_answer))
      = pyUpper (pyStrip (normalize ground_truth_answer))
  else if method = "math" then
    check_equality respond equalityPrompt predicted_answer ground_truth_answer
  else
    predicted_answer = ground_truth_answer

/-! ## Answer extraction (`extract_answer`, evaluator.py)

The `mcq` branch iterates over `MULTILINGUAL_ANSWER_REGEXES` (defined in the
sibling module `app/evals/common.py`, outside this fragment): each compiled
regex search that may return a first capture group is a parameter of type
`List Char → Option (List Char)`, and `normalize_extracted_answer` /
`extract_answer_with_regex` (same module) are function parameters. -/

/-- The `mcq` loop of `extract_answer`: return the normalized first capture
of the first matcher that hits; with no hit, return the response text
itself. -/
def mcqScan (normalize : List Char → List Char) :
    List (List Char → Option (List Char)) → List Char → List Char
  | [], response_text => response_text
  | f :: fs, response_text =>
    match f response_text with
    | some g => normalize g
    | none => mcqScan normalize fs response_text

/-- `extract_answer` (evaluator.py, lines 214–234): dispatch on
`answer_extraction.get("method", "default")`. -/
def extract_answer (mcqMatchers : List (List Char → Option (List Char)))
    (normalize mathExtract : List Char → List Char)
    (response_text : List Char) (answer_extraction : List (String × String)) : List Char :=
  let method := (dlookup answer_extraction "method").getD "default"
  if method = "find_number" then maybe_remove_comma (find_number response_text)
  else if method = "mcq" then mcqScan normalize mcqMatchers response_text
  else if method = "math" then mathExtract response_text
  else pyStrip response_text

/-! ## Dataset evaluation (`evaluate_on_dataset`, evaluator.py)

A dataset is a list of examples; each example (one row of the HuggingFace
`Dataset`) is a mapping from field name to string value.  The model call
(`call_model`, which wraps the out-of-fragment `StringOutputLLMNode`), the
jinja2 template rendering, the equality-prompt template and the
`common.py` helpers are bundled as an oracle of pure functions; the harness
logic itself (prompt assembly, extraction, scoring, counting, category
bookkeeping, the final division) is translated directly.  Raising paths
(`ZeroDivisionError` on an empty dataset, `KeyError`/`TypeError` in the
category bookkeeping) become `Except.error`. -/

/-- One dataset example. -/
structure Problem where
  fields : List (String × String)
  deriving DecidableEq, Repr

/-- The external boundary of the evaluation harness. -/
structure EvalOracle where
  /-- `call_model`: prompt to assistant response. -/
  respond : List Char → List Char
  /-- `jinja2.Template(tmpl).render(**problem)`. -/
  render : String → Problem → List Char
  /-- `EQUALITY_TEMPLATE % {expression1, expression2}` (common.py). -/
  equalityPrompt : List Char → List Char → List Char
  /-- `re.search` with each formatted `MULTILINGUAL_ANSWER_REGEXES` entry,
  returning the first capture group (common.py). -/
  mcqMatchers : List (List Char → Option (List Char))
  /-- `normalize_extracted_answer` (common.py). -/
  normalizeExtracted : List Char → List Char
  /-- `extract_answer_with_regex` (common.py). -/
  mathExtract : List Char → List Char

/-- `generate_input_prompt` (evaluator.py, lines 164–171):
`f"{preamble}\n\n{prompt}\n{question_text}".strip()`. -/
def generate_input_prompt (render : String → Problem → List Char) (problem : Problem)
    (doc_to_text : String) (preamble prompt : List Char) : List Char :=
  pyStrip (preamble ++ "\n\n".toList ++ prompt ++ "\n".toList ++ render doc_to_text problem)

/-- `get_ground_truth_answer` (evaluator.py, lines 264–268). -/
def get_ground_truth_answer (render : String → Problem → List Char) (problem : Problem)
    (doc_to_target : String) : List Char :=
  pyStrip (render doc_to_target problem)

/-- `dataset_subsets` in a task config: absent, one subset name, or a list
of subset names (`isinstance(dataset_subsets, list)` dispatches on the
last). -/
inductive SubsetSpec where
  | absent
  | single (s : String)
  | listOf (ss : List String)
  deriving DecidableEq, Repr

/-- A task configuration, with one field per key the harness reads
(`task_config.get(...)` defaults are the field defaults); `process_docs` is
folded into the dataset-loading oracle. -/
structure TaskConfig where
  dataset_name : Option String := none
  dataset_split : String := "test"
  dataset_subsets : SubsetSpec := .absent
  subject_category_mapping : Option (List (String × String)) := none
  preamble : List Char := []
  prompt : List Char := []
  doc_to_text : String := ""
  doc_to_target : String := ""
  answer_extraction : List (String × String) := []
  evaluation : List (String × String) := []

/-- The metrics mapping `evaluate_on_dataset` returns; the three category
entries are present only when a subject→category mapping is in play.
Accuracy is a Python float, the exact ratio `correct / total`. -/
structure EvalMetrics where
  total_samples : Nat
  correct_predictions : Nat
  accuracy : PyFloat
  all_responses : List (Nat × List Char)
  short_responses : List (Nat × List Char)
  category_correct : Option (List (String × Nat)) := none
  category_total : Option (List (String × Nat)) := none
  category_accuracy : Option (List (String × PyFloat)) := none
  deriving DecidableEq, Repr

/-- Python truthiness of the `subject_category_mapping` dict: `None` and the
empty dict are both falsy. -/
def mappingTruthy (mp : Option (List (String × String))) : Bool :=
  match mp with
  | some (_ :: _) => true
  | _ => false

/-- Zeroed per-category counters over `set(mapping.values())`. -/
def initCats (mp : List (String × String)) : List (String × Nat) :=
  ((mp.map Prod.snd).eraseDups).map (fun c => (c, 0))

/-- `d[k] += 1` on a counter dict: `none` models the `KeyError` when the key
is absent. -/
def catIncr (d : List (String × Nat)) (k : String) : Option (List (String × Nat)) :=
  if dhasKey d k then
    some (d.map (fun kv => if kv.1 = k then (kv.1, kv.2 + 1) else kv))
  else none

/-- The mutable loop state of `evaluate_on_dataset`: response logs, counters,
the running task id, the (re-assignable) `subject` local, and the category
counter dicts threaded by reference. -/
structure EvalLoopState where
  all_responses : List (Nat × List Char)
  short_responses : List (Nat × List Char)
  correct : Nat
  task_id : Nat
  subject : Option String
  category_correct : Option (List (String × Nat))
  category_total : Option (List (String × Nat))
  deriving Repr

/-- The body of the per-example loop of `evaluate_on_dataset` (lines
316–344): record the response and extracted answer under the running task
id, score it, and when a category mapping is in play resolve the example's
subject (preferring its own `subject` field, falling back to a `Subject`
field when the current subject is falsy) and bump the category counters
(`KeyError` when the resolved category is not a counter key, `TypeError`
when a counter dict is `None`). -/
def processExample (O : EvalOracle) (cfg : TaskConfig)
    (mapping : Option (List (String × String)))
    (st : EvalLoopState) (problem : Problem) : Except String EvalLoopState :=
  let full_prompt :=
    generate_input_prompt O.render problem cfg.doc_to_text cfg.preamble cfg.prompt
  let response_text := O.respond full_prompt
  let predicted_answer :=
    extract_answer O.mcqMatchers O.normalizeExtracted O.mathExtract
      response_text cfg.answer_extraction
  let ground_truth_answer := get_ground_truth_answer O.render problem cfg.doc_to_target
  let is_correct :=
    evaluate_answer O.respond O.equalityPrompt O.normalizeExtracted
      predicted_answer ground_truth_answer cfg.evaluation
  let st1 := { st with
    all_responses := st.all_responses ++ [(st.task_id, response_text)],
    short_responses := st.short_responses ++ [(st.task_id, predicted_answer)],
    correct := st.correct + (if is_correct then 1 else 0) }
  if mappingTruthy mapping then
    let mp := mapping.getD []
    let subj1 := match dlookup problem.fields "subject" with
      | some v => some v
      | none => st.subject
    let subj2 :=
      if (subj1 = none ∨ subj1 = some "") ∧ (dlookup problem.fields "Subject").isSome then
        dlookup problem.fields "Subject"
      else subj1
    let category := (match subj2 with
      | some s => dlookup mp s
      | none => none).getD "other"
    match st1.category_total with
    | none => .error "TypeError: category_total is None"
    | some ct =>
      match catIncr ct category with
      | none => .error "KeyError: category_total"
      | some ct' =>
        if is_correct then
          match st1.category_correct with
          | none => .error "TypeError: category_correct is None"
          | some cc =>
            match catIncr cc category with
            | none => .error "KeyError: category_correct"
            | some cc' =>
              .ok { st1 with
                    task_id := st1.task_id + 1
                    subject := subj2
                    category_correct := some cc'
                    category_total := some ct' }
        else
          .ok { st1 with
                task_id := st1.task_id + 1
                subject := subj2
                category_total := some ct' }
  else
    .ok { st1 with task_id := st1.task_id + 1 }

/-- One batch of the loop: the examples of a batch are scored in input order
(the concurrent model calls are re-associated by position). -/
def processProblems (O : EvalOracle) (cfg : TaskConfig)
    (mapping : Option (List (String × String))) :
    List Problem → EvalLoopState → Except String EvalLoopState
  | [], st => .ok st
  | p :: ps, st =>
    match processExample O cfg mapping st p with
    | .error e => .error e
    | .ok st' => processProblems O cfg mapping ps st'

/-- `dataset.iter(batch_size)`: consecutive chunks (fuel-driven; the fuel
`l.length` suffices for every positive batch size). -/
def chunkAux {α : Type} (b : Nat) : Nat → List α → List (List α)
  | _, [] => []
  | 0, _ => []
  | fuel + 1, l => l.take b :: chunkAux b fuel (l.drop b)

/-- The batches of a dataset. -/
def chunkList {α : Type} (b : Nat) (l : List α) : List (List α) :=
  chunkAux b l.length l

/-- The batch loop: batches strictly in sequence. -/
def runChunks (O : EvalOracle) (cfg : TaskConfig)
    (mapping : Option (List (String × String))) :
    List (List Problem) → EvalLoopState → Except String EvalLoopState
  | [], st => .ok st
  | c :: cs, st =>
    match processProblems O cfg mapping c st with
    | .error e => .error e
    | .ok st' => runChunks O cfg mapping cs st'

/-- The per-category accuracy comprehension (lines 358–365): for each
category key of the correct-counter dict, `correct/total` when the total is
positive and the integer `0` otherwise; `none` models the `KeyError` when a
key is missing from the total dict `ct`. -/
def catAccuracy (ct : List (String × Nat)) : List (String × Nat) →
    Option (List (String × PyFloat))
  | [] => some []
  | kv :: rest =>
    match dlookup ct kv.1 with
    | none => none
    | some t =>
      match catAccuracy ct rest with
      | none => none
      | some acc =>
        some ((kv.1, if 0 < t then PyFloat.finite kv.2 t else PyFloat.finite 0 1) :: acc)

/-- Assembling the metrics dict (lines 345–366) once the loop finished: the
unguarded `accuracy = correct / total` comes first, so a zero total raises
`ZeroDivisionError` before any dict is built; the category entries are added
only when the mapping is truthy. -/
def finalizeMetrics (mappingPresent : Bool) (total : Nat) (st : EvalLoopState) :
    Except String EvalMetrics :=
  if total = 0 then .error "ZeroDivisionError: division by zero"
  else
    let base : EvalMetrics := {
      total_samples := total,
      correct_predictions := st.correct,
      accuracy := .finite st.correct total,
      all_responses := st.all_responses,
      short_responses := st.short_responses }
    if mappingPresent then
      match st.category_correct, st.category_total with
      | some cc, some ct =>
        match catAccuracy ct cc with
        | some ca =>
          .ok { base with
                category_correct := some cc
                category_total := some ct
                category_accuracy := some ca }
        | none => .error "KeyError: category_total"
      | _, _ => .error "TypeError: category counters are None"
    else .ok base

/-- `evaluate_on_dataset` (evaluator.py, lines 271–366). -/
def evaluate_on_dataset (O : EvalOracle) (dataset : List Problem) (cfg : TaskConfig)
    (batch_size : Nat := 10) (subject : Option String := none)
    (subject_category_mapping : Option (List (String × String)) := none)
    (category_correct : Option (List (String × Nat)) := none)
    (category_total : Option (List (String × Nat)) := none) :
    Except String EvalMetrics :=
  let total := dataset.length
  let init :=
    if mappingTruthy subject_category_mapping ∧ category_correct = none
        ∧ category_total = none then
      (some (initCats (subject_category_mapping.getD [])),
       some (initCats (subject_category_mapping.getD [])))
    else (category_correct, category_total)
  let st0 : EvalLoopState :=
    ⟨[], [], 0, 0, subject, init.1, init.2⟩
  match runChunks O cfg subject_category_mapping (chunkList batch_size dataset) st0 with
  | .error e => .error e
  | .ok st => finalizeMetrics (mappingTruthy subject_category_mapping) total st

/-! ## Multi-subset orchestration (`evaluate_model_on_dataset`, evaluator.py)

Dataset loading (`load_dataset_by_name`, including `process_docs`) and
`dataset.shuffle(seed=42)` are oracle parameters (`loadDS`, `shuffle`);
`select(range(min(num_samples, len(dataset))))` is a `take`. -/

/-- Load one (optionally subset-scoped) dataset and down-sample it when
`num_samples` is given. -/
def prepDataset (loadDS : Option String → List Problem)
    (shuffle : List Problem → List Problem)
    (num_samples : Option Nat) (subset : Option String) : List Problem :=
  let dataset := loadDS subset
  match num_samples with
  | none => dataset
  | some n => (shuffle dataset).take (min n dataset.length)

/-- The outer result of the list-of-subsets branch. -/
structure MultiResults where
  total_samples : Nat
  correct_predictions : Nat
  accuracy : PyFloat
  subset_metrics : List (String × EvalMetrics)
  category_accuracy : Option (List (String × PyFloat)) := none
  deriving DecidableEq, Repr

/-- What `evaluate_model_on_dataset` returns: the combined structure for a
list of subsets, the plain metrics dict otherwise. -/
inductive ModelOut where
  | multi (r : MultiResults)
  | single (m : EvalMetrics)
  deriving DecidableEq, Repr

/-- The per-subset loop (lines 403–425): evaluate each subset in turn,
store its metrics under its name, add its totals into the running sums, and
carry the (aliased) category counters into the next subset. -/
def evalSubsets (O : EvalOracle) (loadDS : Option String → List Problem)
    (shuffle : List Problem → List Problem) (cfg : TaskConfig)
    (batch_size : Nat) (num_samples : Option Nat)
    (mapping : Option (List (String × String))) :
    List String → Nat → Nat → List (String × EvalMetrics) →
    Option (List (String × Nat)) → Option (List (String × Nat)) →
    Except String (Nat × Nat × List (String × EvalMetrics) ×
      Option (List (String × Nat)) × Option (List (String × Nat)))
  | [], total_correct, total_samples, subset_metrics, cc, ct =>
    .ok (total_correct, total_samples, subset_metrics, cc, ct)
  | subset :: rest, total_correct, total_samples, subset_metrics, cc, ct =>
    let dataset := prepDataset loadDS shuffle num_samples (some subset)
    match evaluate_on_dataset O dataset cfg batch_size (some subset) mapping cc ct with
    | .error e => .error e
    | .ok m =>
      evalSubsets O loadDS shuffle cfg batch_size num_samples mapping rest
        (total_correct + m.correct_predictions)
        (total_samples + m.total_samples)
        (dinsert subset_metrics subset m)
        (match m.category_correct with | some d => some d | none => cc)
        (match m.category_total with | some d => some d | none => ct)

/-- `evaluate_model_on_dataset` (evaluator.py, lines 369–467). -/
def evaluate_model_on_dataset (O : EvalOracle)
    (loadDS : Option String → List Problem)
    (shuffle : List Problem → List Problem) (cfg : TaskConfig)
    (batch_size : Nat := 10) (num_samples : Option Nat := none) :
    Except String ModelOut :=
  if cfg.dataset_name = none ∨ cfg.dataset_name = some "" then
    .error "ValueError: dataset_name must be provided in task_config."
  else
    let init :=
      if mappingTruthy cfg.subject_category_mapping then
        (some (initCats (cfg.subject_category_mapping.getD [])),
         some (initCats (cfg.subject_category_mapping.getD [])))
      else (none, none)
    match cfg.dataset_subsets with
    | .listOf subsets =>
      match evalSubsets O loadDS shuffle cfg batch_size num_samples
          cfg.subject_category_mapping subsets 0 0 [] init.1 init.2 with
      | .error e => .error e
      | .ok (total_correct, total_samples, subset_metrics, cc, ct) =>
        let overall_accuracy : PyFloat :=
          if 0 < total_samples then .finite total_correct total_samples
          else .finite 0 1
        let base : MultiResults := {
          total_samples := total_samples,
          correct_predictions := total_correct,
          accuracy := overall_accuracy,
          subset_metrics := subset_metrics }
        if mappingTruthy cfg.subject_category_mapping then
          match cc, ct with
          | some ccd, some ctd =>
            match catAccuracy ctd ccd with
            | some ca => .ok (.multi { base with category_accuracy := some ca })
            | none => .error "KeyError: category_total"
          | _, _ => .error "TypeError: category counters are None"
        else .ok (.multi base)
    | other =>
      let subsetArg : Option String :=
        match other with
        | .single s => some s
        | _ => none
      let dataset := prepDataset loadDS shuffle num_samples subsetArg
      match evaluate_on_dataset O dataset cfg batch_size subsetArg
          cfg.subject_category_mapping none none with
      | .error e => .error e
      | .ok m => .ok (.single m)

/-- Decidable equality on `Except`, so that concrete harness runs can be
checked by evaluation. -/
instance {ε α : Type} [DecidableEq ε] [DecidableEq α] : DecidableEq (Except ε α) := fun a b =>
  match a, b with
  | .error x, .error y =>
    match decEq x y with
    | isTrue h => isTrue (h ▸ rfl)
    | isFalse h => isFalse (fun hc => h (Except.error.inj hc))
  | .ok x, .ok y =>
    match decEq x y with
    | isTrue h => isTrue (h ▸ rfl)
    | isFalse h => isFalse (fun hc => h (Except.ok.inj hc))
  | .error _, .ok _ => isFalse (fun hc => Except.noConfusion hc)
  | .ok _, .error _ => isFalse (fun hc => Except.noConfusion hc)

/-! ## Node-type schema endpoint (`get_node_types`, node_management.py)

The node registry (`NodeFactory.get_all_node_types()`, outside this
fragment) is the input: a mapping from group name to node-type entries, each
carrying a node class.  A node class's three schema-model attributes are
`Option` values whose payload is the JSON Schema document that
`model_json_schema()` serializes to; `none` models the attribute being
absent, which raises `AttributeError` when touched.  The handler catches
that error for the input and output models only. -/

/-- A JSON value (the shape of a serialized JSON Schema document). -/
inductive Json where
  | obj (fields : List (String × Json))
  | arr (items : List Json)
  | str (s : String)
  | num (n : Int)
  | bool (b : Bool)
  | null

/-- A node class as the endpoint sees it. -/
structure NodeClass where
  input_model : Option Json
  output_model : Option Json
  config_model : Option Json

/-- One registry entry. -/
structure NodeTypeEntry where
  node_type_name : String
  node_class : NodeClass

/-- One record of the endpoint's response. -/
structure NodeSchemaRecord where
  name : String
  input : Json
  output : Json
  config : Json

/-- A Python loop that appends `f a` for each element and lets any raised
error escape. -/
def mapExcept {α β : Type} (f : α → Except String β) : List α → Except String (List β)
  | [] => .ok []
  | a :: l =>
    match f a with
    | .error e => .error e
    | .ok b =>
      match mapExcept f l with
      | .error e => .error e
      | .ok bs => .ok (b :: bs)

/-- The per-node body of `get_node_types` (node_management.py, lines 22–38):
input and output schemas fall back to `{}` under `except AttributeError`;
the config schema access is unguarded. -/
def nodeSchema (nt : NodeTypeEntry) : Except String NodeSchemaRecord :=
  match nt.node_class.config_model with
  | none => .error "AttributeError: config_model"
  | some cfgSchema =>
    .ok {
      name := nt.node_type_name,
      input := (nt.node_class.input_model).getD (Json.obj []),
      output := (nt.node_class.output_model).getD (Json.obj []),
      config := cfgSchema }

/-- `get_node_types` (node_management.py, lines 12–41): one response key per
group, one record per node type. -/
def get_node_types (node_groups : List (String × List NodeTypeEntry)) :
    Except String (List (String × List NodeSchemaRecord)) :=
  mapExcept (fun g => (mapExcept nodeSchema g.2).map (fun recs => (g.1, recs))) node_groups

/-- The record `get_node_types` produces for a node class whose config model
is present. -/
def nodeRecordOf (nt : NodeTypeEntry) : NodeSchemaRecord := {
  name := nt.node_type_name,
  input := (nt.node_class.input_model).getD (Json.obj []),
  output := (nt.node_class.output_model).getD (Json.obj []),
  config := (nt.node_class.config_model).getD (Json.obj []) }

/-! ## LLM utility library (llm.py)

`create_messages` / `create_messages_with_images` are pure list builders.
`compute_embeddings` calls `get_embedding` per document; that call (the
OpenAI embeddings endpoint behind retries) is an oracle returning `none`
when the call ultimately fails. -/

/-- A plain chat message. -/
structure ChatMessage where
  role : String
  content : String
  deriving DecidableEq, Repr

/-- A typed content part of an image-capable message. -/
inductive ContentPart where
  | text (t : String)
  | image_url (url : String)
  deriving DecidableEq, Repr

/-- A chat message whose content is a list of typed parts. -/
structure PartMessage where
  role : String
  content : List ContentPart
  deriving DecidableEq, Repr

/-- One few-shot example dict: `input`, `output` and (for the image variant)
`img`. -/
structure FewShotExample where
  input : String
  output : String
  img : String := ""
  deriving DecidableEq, Repr

/-- `create_messages` (llm.py, lines 49–63). -/
def create_messages (system_message user_message : String)
    (few_shot_examples : Option (List FewShotExample) := none)
    (history : Option (List ChatMessage) := none) : List ChatMessage :=
  let messages := [ChatMessage.mk "system" system_message]
  let messages := messages ++ (match few_shot_examples with
    | some exs => exs.bind (fun e => [⟨"user", e.input⟩, ⟨"assistant", e.output⟩])
    | none => [])
  let messages := messages ++ (match history with
    | some h => h
    | none => [])
  messages ++ [⟨"user", user_message⟩]

/-- `messages[-1]["content"].append(part)`: add a text part to the last
message's content list. -/
def appendTextToLast (msgs : List PartMessage) (t : String) : List PartMessage :=
  match msgs.getLast? with
  | none => msgs
  | some m => msgs.dropLast ++ [⟨m.role, m.content ++ [.text t]⟩]

/-- `create_messages_with_images` (llm.py, lines 66–108): each few-shot
example contributes a text *user* message, an image *user* message and an
assistant message; the final user turn is the image reference, and a
non-empty `user_message` is appended to that turn as a trailing text part. -/
def create_messages_with_images (system_message base64_image : String)
    (user_message : String := "")
    (few_shot_examples : Option (List FewShotExample) := none)
    (history : Option (List PartMessage) := none) : List PartMessage :=
  let messages := [PartMessage.mk "system" [.text system_message]]
  let messages := messages ++ (match few_shot_examples with
    | some exs => exs.bind (fun e =>
        [⟨"user", [.text e.input]⟩,
         ⟨"user", [.image_url e.img]⟩,
         ⟨"assistant", [.text e.output]⟩])
    | none => [])
  let messages := messages ++ (match history with
    | some h => h
    | none => [])
  let messages := messages ++ [⟨"user", [.image_url base64_image]⟩]
  if ¬ user_message = "" then appendTextToLast messages user_message else messages

/-- A document passed to `compute_embeddings`: a Python `str` or any other
object. -/
inductive PyDoc where
  | str (s : String)
  | other (tag : String)
  deriving DecidableEq, Repr

/-- `isinstance(doc, str)`. -/
def PyDoc.isStr : PyDoc → Bool
  | .str _ => true
  | .other _ => false

/-- The string payload (used only on documents that are strings). -/
def PyDoc.text : PyDoc → String
  | .str s => s
  | .other t => t

/-- `compute_embeddings` (llm.py, lines 197–222): with no extractor and a
non-string document, log and return an empty array; otherwise one embedding
per document in order, a failed call replaced by a zero vector of the
configured dimensionality. -/
def compute_embeddings (getEmb : String → Option (List PyFloat)) (docs : List PyDoc)
    (embedding_dimensions : Nat := 1536)
    (text_extractor : Option (PyDoc → String) := none) : List (List PyFloat) :=
  let textsOpt : Option (List String) :=
    match text_extractor with
    | some f => some (docs.map f)
    | none =>
      if docs.all PyDoc.isStr then some (docs.map PyDoc.text) else none
  match textsOpt with
  | none => []
  | some texts =>
    texts.map (fun t =>
      match getEmb t with
      | some emb => emb
      | none => List.replicate embedding_dimensions (PyFloat.finite 0 1))

/-- A small JSON Schema document for the endpoint fixtures. -/
def c7schema : Json := .obj [("type", .str "object")]

/-- A concrete registry: two groups, one node class lacking both optional
models and one lacking only the output model. -/
def c7groups : List (String × List NodeTypeEntry) := [
  ("llm", [⟨"BasicLLMNode", ⟨some c7schema, some c7schema, some c7schema⟩⟩,
           ⟨"NoIONode", ⟨none, none, some c7schema⟩⟩]),
  ("python", [⟨"PythonFuncNode", ⟨some c7schema, none, some c7schema⟩⟩])]

/-- An embedding oracle that fails on the text `"bad"`. -/
def c8emb : String → Option (List PyFloat) := fun t =>
  if t = "bad" then none else some [.finite 1 1, .finite 2 1]

/-! ## Concrete fixtures for the evaluation-harness claims

A deterministic oracle whose model always answers `"5"` and whose template
rendering reads the field named by the template source, plus tiny datasets
whose `ans` fields decide correctness under the default extraction and
evaluation methods. -/

/-- A concrete deterministic oracle. -/
def cOracle : EvalOracle := {
  respond := fun _ => "5".toList,
  render := fun tmpl p => (match dlookup p.fields tmpl with | some v => v.toList | none => []),
  equalityPrompt := fun a _ => a,
  mcqMatchers := [],
  normalizeExtracted := id,
  mathExtract := id }

/-- A concrete task config with a two-subset list. -/
def c3cfg : TaskConfig := {
  dataset_name := some "ds",
  dataset_subsets := .listOf ["A", "B"],
  doc_to_text := "q",
  doc_to_target := "ans" }

/-- Subset datasets: `A` has 3 of 5 answers equal to the model's fixed
response, `B` has 4 of 5. -/
def c3load : Option String → List Problem := fun s =>
  if s = some "A" then
    [⟨[("ans", "5")]⟩, ⟨[("ans", "5")]⟩, ⟨[("ans", "5")]⟩, ⟨[("ans", "7")]⟩, ⟨[("ans", "7")]⟩]
  else if s = some "B" then
    [⟨[("ans", "5")]⟩, ⟨[("ans", "5")]⟩, ⟨[("ans", "5")]⟩, ⟨[("ans", "5")]⟩, ⟨[("ans", "7")]⟩]
  else []

/-- The metrics of subset `A`: 3 of 5 correct. -/
def c3metricsA : EvalMetrics := {
  total_samples := 5,
  correct_predictions := 3,
  accuracy := .finite 3 5,
  all_responses := [(0, "5".toList), (1, "5".toList), (2, "5".toList),
    (3, "5".toList), (4, "5".toList)],
  short_responses := [(0, "5".toList), (1, "5".toList), (2, "5".toList),
    (3, "5".toList), (4, "5".toList)] }

/-- The metrics of subset `B`: 4 of 5 correct. -/
def c3metricsB : EvalMetrics := { c3metricsA with correct_predictions := 4, accuracy := .finite 4 5 }

/-- The combined result on `[A, B]`: 7 of 10, accuracy `0.7`. -/
def c3expected : MultiResults := {
  total_samples := 10,
  correct_predictions := 7,
  accuracy := .finite 7 10,
  subset_metrics := [("A", c3metricsA), ("B", c3metricsB)] }

/-- The same config with subset `A` listed twice. -/
def c3dupCfg : TaskConfig := { c3cfg with dataset_subsets := .listOf ["A", "A"] }

/-- The result on `[A, A]`: the running totals count `A` twice while
`subset_metrics` holds a single entry. -/
def c3dupExpected : MultiResults := {
  total_samples := 10,
  correct_predictions := 6,
  accuracy := .finite 6 10,
  subset_metrics := [("A", c3metricsA)] }

/-- The metrics of a one-example dataset whose answer matches the model. -/
def c2metrics : EvalMetrics := {
  total_samples := 1,
  correct_predictions := 1,
  accuracy := .finite 1 1,
  all_responses := [(0, "5".toList)],
  short_responses := [(0, "5".toList)] }

/-! ## Theorems -/

theorem dlookup_nil {β : Type} (k : String) : dlookup ([] : List (String × β)) k = none := rfl

theorem dlookup_cons {β : Type} (a : String) (b : β) (t : List (String × β)) (k : String) :
    dlookup ((a, b) :: t) k = if a = k then some b else dlookup t k := by
  by_cases h : a = k <;> simp [dlookup, List.find?, h]

theorem dhasKey_eq_isSome_dlookup {β : Type} (d : List (String × β)) (k : String) :
    dhasKey d k = (dlookup d k).isSome := by
  induction d with
  | nil => rfl
  | cons hd t ih =>
    obtain ⟨a, b⟩ := hd
    by_cases h : a = k <;> simp [dhasKey, dlookup_cons, h] at ih ⊢ <;>
      simpa [dhasKey, dlookup] using ih

theorem dlookup_derase_self {β : Type} (d : List (String × β)) (k : String) :
    dlookup (derase d k) k = none := by
  induction d with
  | nil => rfl
  | cons hd t ih =>
    obtain ⟨a, b⟩ := hd
    by_cases h : a = k <;> simp [derase, dlookup_cons, h] at ih ⊢ <;>
      simpa [derase] using ih

theorem dlookup_append {β : Type} (d e : List (String × β)) (k : String) :
    dlookup (d ++ e) k = ((dlookup d k).orElse (fun _ => dlookup e k)) := by
  induction d with
  | nil => rfl
  | cons hd t ih =>
    obtain ⟨a, b⟩ := hd
    by_cases h : a = k <;> simp [dlookup_cons, h, List.cons_append, ih]

theorem dlookup_map_replace {β : Type} (d : List (String × β)) (a : String) (v : β)
    (k : String) :
    dlookup (d.map (fun kv => if kv.1 = a then (kv.1, v) else kv)) k =
      if a = k then (if (dlookup d k).isSome then some v else none) else dlookup d k := by
  induction d with
  | nil => by_cases h : a = k <;> simp [dlookup, h]
  | cons hd t ih =>
    obtain ⟨c, w⟩ := hd
    by_cases hca : c = a
    · by_cases hak : a = k
      · subst hca; subst hak
        simp [dlookup_cons]
      · subst hca
        simp [dlookup_cons, hak, ih]
    · by_cases hck : c = k
      · subst hck
        have hak : ¬ a = c := fun h => hca h.symm
        simp [dlookup_cons, hca, hak]
      · simp [dlookup_cons, hca, hck, ih]

/-- `dinsert` behaves as point-update for lookups. -/
theorem dlookup_dinsert {β : Type} (d : List (String × β)) (a : String) (v : β) (k : String) :
    dlookup (dinsert d a v) k = if a = k then some v else dlookup d k := by
  unfold dinsert
  by_cases hk : dhasKey d a
  · rw [if_pos hk, dlookup_map_replace]
    by_cases hak : a = k
    · subst hak
      have : (dlookup d a).isSome := by
        rw [← dhasKey_eq_isSome_dlookup]; exact hk
      simp [this]
    · simp [hak]
  · rw [if_neg hk, dlookup_append]
    by_cases hak : a = k
    · subst hak
      have hnone : dlookup d a = none := by
        cases h : dlookup d a with
        | none => rfl
        | some w =>
          exact absurd (by rw [dhasKey_eq_isSome_dlookup, h]; rfl) hk
      simp [hnone, dlookup_cons, Option.orElse]
    · cases h : dlookup d k with
      | none => simp [h, dlookup_cons, hak, Option.orElse, dlookup]
      | some w => simp [h, hak, Option.orElse]

/-- Merging with a dict that lacks a key leaves that key's lookup unchanged. -/
theorem dlookup_dupdate_of_absent {β : Type} (d2 : List (String × β)) (d1 : List (String × β))
    (k : String) (h : dlookup d2 k = none) :
    dlookup (dupdate d1 d2) k = dlookup d1 k := by
  induction d2 generalizing d1 with
  | nil => rfl
  | cons hd t ih =>
    obtain ⟨a, b⟩ := hd
    rw [dlookup_cons] at h
    by_cases hak : a = k
    · rw [if_pos hak] at h; exact absurd h (by simp)
    · rw [if_neg hak] at h
      show dlookup (dupdate (dinsert d1 a b) t) k = dlookup d1 k
      rw [ih _ h, dlookup_dinsert, if_neg hak]

/-- Merging with a dict that holds a key (exactly once among its pairs)
makes that key's lookup return the merged-in value. -/
theorem dlookup_dupdate_of_present {β : Type} (d2 : List (String × β)) (d1 : List (String × β))
    (k : String) (v : β) (hnd : (d2.map Prod.fst).Nodup) (h : dlookup d2 k = some v) :
    dlookup (dupdate d1 d2) k = some v := by
  induction d2 generalizing d1 with
  | nil => exact absurd h (by simp [dlookup])
  | cons hd t ih =>
    obtain ⟨a, b⟩ := hd
    rw [dlookup_cons] at h
    simp only [List.map_cons, List.nodup_cons] at hnd
    by_cases hak : a = k
    · rw [if_pos hak] at h
      have hb : b = v := by injection h
      subst hb; subst hak
      show dlookup (dupdate (dinsert d1 a b) t) a = some b
      have habs : dlookup t a = none := by
        cases hl : dlookup t a with
        | none => rfl
        | some w =>
          exfalso
          have : a ∈ t.map Prod.fst := by
            unfold dlookup at hl
            cases hf : t.find? (fun kv => kv.1 = a) with
            | none => rw [hf] at hl; simp at hl
            | some kv =>
              have hkv := List.find?_some hf
              have hmem := List.mem_of_find?_eq_some hf
              simp only [decide_eq_true_eq] at hkv
              exact hkv ▸ List.mem_map_of_mem Prod.fst hmem
          exact hnd.1 this
      rw [dlookup_dupdate_of_absent t _ a habs, dlookup_dinsert, if_pos rfl]
    · rw [if_neg hak] at h
      show dlookup (dupdate (dinsert d1 a b) t) k = some v
      exact ih _ hnd.2 h

theorem loadIncludes_no_include (fs loadF : String → Option YamlDict) (yaml_dir : String)
    (hF : ∀ p d', loadF p = some d' → dlookup d' "include" = none) :
    ∀ ps acc fin, dlookup acc "include" = none →
      loadIncludes fs loadF yaml_dir ps acc = some fin → dlookup fin "include" = none := by
  intro ps
  induction ps with
  | nil =>
    intro acc fin hacc h
    unfold loadIncludes at h
    injection h with h
    exact h ▸ hacc
  | cons p ps ih =>
    intro acc fin hacc h
    unfold loadIncludes at h
    dsimp only at h
    cases hL : loadF (if (fs p).isSome then p else joinPath yaml_dir p) with
    | none => rw [hL] at h; exact absurd h (by simp)
    | some inc =>
      rw [hL] at h
      refine ih _ _ ?_ h
      rw [dlookup_dupdate_of_absent _ _ _ (hF _ _ hL)]
      exact hacc

theorem load_yaml_config_no_include (fs : String → Option YamlDict) :
    ∀ fuel path d, load_yaml_config fs fuel path = some d → dlookup d "include" = none := by
  intro fuel
  induction fuel with
  | zero =>
    intro path d h
    exact absurd h (by simp [load_yaml_config])
  | succ n ih =>
    intro path d h
    unfold load_yaml_config at h
    cases hfs : fs path with
    | none => rw [hfs] at h; exact absurd h (by simp)
    | some cfg =>
      rw [hfs] at h
      dsimp only at h
      cases hinc : dlookup cfg "include" with
      | none =>
        rw [hinc] at h
        injection h with h
        exact h ▸ hinc
      | some v =>
        rw [hinc] at h
        dsimp only at h
        cases v with
        | num n => exact absurd h (by simp)
        | str s =>
          dsimp only at h
          cases hL : loadIncludes fs (load_yaml_config fs n) (dirname path) [s].reverse [] with
          | none => rw [hL] at h; exact absurd h (by simp)
          | some fin =>
            rw [hL] at h
            injection h with h
            subst h
            rw [dlookup_dupdate_of_absent _ _ _ (dlookup_derase_self cfg "include")]
            exact loadIncludes_no_include fs _ _ (fun p d' hp => ih p d' hp) _ _ _ (dlookup_nil "include") hL
        | strList ps =>
          dsimp only at h
          cases hL : loadIncludes fs (load_yaml_config fs n) (dirname path) ps.reverse [] with
          | none => rw [hL] at h; exact absurd h (by simp)
          | some fin =>
            rw [hL] at h
            injection h with h
            subst h
            rw [dlookup_dupdate_of_absent _ _ _ (dlookup_derase_self cfg "include")]
            exact loadIncludes_no_include fs _ _ (fun p d' hp => ih p d' hp) _ _ _ (dlookup_nil "include") hL

/-- The general shape of a two-include load: the includes are loaded in
reverse of their listed order and folded with `dict.update`, and the root's
remaining keys are merged last. -/
theorem load_yaml_config_two_includes (fs : String → Option YamlDict) (fuel : Nat)
    (root pa pb : String) (cfg da db : YamlDict)
    (hroot : fs root = some cfg)
    (hinc : dlookup cfg "include" = some (.strList [pa, pb]))
    (ha : fs pa = some da) (hb : fs pb = some db)
    (hia : dlookup da "include" = none) (hib : dlookup db "include" = none) :
    load_yaml_config fs (fuel + 2) root =
      some (dupdate (dupdate (dupdate [] db) da) (derase cfg "include")) := by
  show load_yaml_config fs (fuel + 1 + 1) root = _
  unfold load_yaml_config
  rw [hroot]
  simp only
  rw [hinc]
  have hloadA : load_yaml_config fs (fuel + 1) pa = some da := by
    unfold load_yaml_config
    rw [ha]
    simp only
    rw [hia]
  have hloadB : load_yaml_config fs (fuel + 1) pb = some db := by
    unfold load_yaml_config
    rw [hb]
    simp only
    rw [hib]
  show (match loadIncludes fs (load_yaml_config fs (fuel + 1)) (dirname root)
          [pa, pb].reverse [] with
        | none => none
        | some fin => some (dupdate fin (derase cfg "include"))) = _
  have : loadIncludes fs (load_yaml_config fs (fuel + 1)) (dirname root) [pa, pb].reverse []
      = some (dupdate (dupdate [] db) da) := by
    show loadIncludes fs _ _ [pb, pa] [] = _
    unfold loadIncludes
    rw [hb]
    simp only [Option.isSome_some, if_pos]
    rw [hloadB]
    unfold loadIncludes
    rw [ha]
    simp only [Option.isSome_some, if_pos]
    rw [hloadA]
    unfold loadIncludes
    rfl
  rw [this]

/-- **C1 — counterexample.** On the claim's own example (root includes
`[a.yaml, b.yaml]`, `a.yaml` has `x: 1`, `b.yaml` has `x: 2`, root has no
`x`), the merged result has `x = 1`, not `x = 2` as the claim states: the
loader reverses the include list to `[b.yaml, a.yaml]` and folds with
`dict.update`, so the earliest listed include is applied last and wins. -/
theorem claim_C1_counterexample :
    load_yaml_config c1fs 2 "root.yaml" = some [("x", .num 1), ("y", .num 0)] ∧
    dlookup [(("x" : String), YVal.num 1), ("y", .num 0)] "x" = some (.num 1) ∧
    ¬ dlookup [(("x" : String), YVal.num 1), ("y", .num 0)] "x" = some (.num 2) := by
  refine ⟨by decide, by decide, by decide⟩

/-- **C1 (amended).** For `load_yaml_config` in full or simple mode: when the
root YAML document lists includes `[a, b]`, the included documents are loaded
in reverse of their listed order and folded left with `dict.update`, so the
*earliest* listed include takes *highest* priority among the includes (in the
claim's example the merged result has `x = 1`, from `a.yaml`, not `x = 2`);
the root document's own keys still override every include. -/
theorem claim_C1 (fs : String → Option YamlDict) (fuel : Nat)
    (root pa pb : String) (cfg da db : YamlDict)
    (hroot : fs root = some cfg)
    (hinc : dlookup cfg "include" = some (.strList [pa, pb]))
    (ha : fs pa = some da) (hb : fs pb = some db)
    (hia : dlookup da "include" = none) (hib : dlookup db "include" = none)
    (hnda : (da.map Prod.fst).Nodup)
    (hndr : (((derase cfg "include")).map Prod.fst).Nodup) :
    load_yaml_config fs (fuel + 2) root =
      some (dupdate (dupdate (dupdate [] db) da) (derase cfg "include")) ∧
    (∀ k v, dlookup (derase cfg "include") k = some v →
      dlookup (dupdate (dupdate (dupdate [] db) da) (derase cfg "include")) k = some v) ∧
    (∀ k v, dlookup (derase cfg "include") k = none → dlookup da k = some v →
      dlookup (dupdate (dupdate (dupdate [] db) da) (derase cfg "include")) k = some v) := by
  refine ⟨load_yaml_config_two_includes fs fuel root pa pb cfg da db hroot hinc ha hb hia hib,
    ?_, ?_⟩
  · intro k v hv
    exact dlookup_dupdate_of_present _ _ _ _ hndr hv
  · intro k v hnone hv
    rw [dlookup_dupdate_of_absent _ _ _ hnone]
    exact dlookup_dupdate_of_present _ _ _ _ hnda hv

/-- Witness for C1: the amended theorem applied to the concrete example file
system, specialized to the key `x`, giving `x = 1`. -/
theorem claim_C1_witness :
    c1fs "root.yaml" = some [("include", .strList ["a.yaml", "b.yaml"]), ("y", .num 0)] ∧
    dlookup (dupdate (dupdate (dupdate []
        [(("x" : String), YVal.num 2)]) [(("x" : String), YVal.num 1)])
      (derase [("include", .strList ["a.yaml", "b.yaml"]), ("y", .num 0)] "include"))
      "x" = some (.num 1) :=
  ⟨by decide,
    (claim_C1 c1fs 0 "root.yaml" "a.yaml" "b.yaml"
        [("include", .strList ["a.yaml", "b.yaml"]), ("y", .num 0)]
        [("x", .num 1)] [("x", .num 2)]
        (by decide) (by decide) (by decide) (by decide) (by decide) (by decide)
        (by decide) (by decide)).2.2 "x" (.num 1) (by decide) (by decide)⟩

/-- **C10.** Whenever `load_yaml_config` succeeds, the returned mapping has no
`include` key: the key is deleted from the root document before merging, and
every included document is itself loaded through `load_yaml_config`, so at no
recursion depth does an `include` key survive into the merged result. -/
theorem claim_C10 (fs : String → Option YamlDict) (fuel : Nat) (path : String)
    (d : YamlDict) (h : load_yaml_config fs fuel path = some d) :
    dlookup d "include" = none :=
  load_yaml_config_no_include fs fuel path d h

/-- Witness for C10: a successful two-level include load whose result carries
no `include` key. -/
theorem claim_C10_witness :
    load_yaml_config c10fs 3 "top.yaml" =
      some [(("n" : String), YVal.num 9), ("m", .num 8), ("k", .num 7)] ∧
    dlookup [(("n" : String), YVal.num 9), ("m", .num 8), ("k", .num 7)] "include" = none :=
  ⟨by decide, claim_C10 c10fs 3 "top.yaml" _ (by decide)⟩

/-! ### Substring machinery for `find_number` -/

theorem splitFirst_eq (m : List Char) :
    ∀ x p s, splitFirst m x = some (p, s) → x = p ++ m ++ s := by
  intro x
  induction x with
  | nil =>
    intro p s h
    unfold splitFirst at h
    split at h
    · rename_i hm
      rw [List.isPrefixOf_iff_prefix, List.prefix_nil] at hm
      injection h with h
      cases h
      simp [hm]
    · exact absurd h (by simp)
  | cons c rest ih =>
    intro p s h
    unfold splitFirst at h
    split at h
    · rename_i hm
      rw [List.isPrefixOf_iff_prefix] at hm
      obtain ⟨t, ht⟩ := hm
      injection h with h
      cases h
      simp only [List.nil_append]
      rw [← ht, List.drop_left]
    · cases hsf : splitFirst m rest with
      | none => rw [hsf] at h; exact absurd h (by simp)
      | some pr =>
        rw [hsf] at h
        obtain ⟨p', s'⟩ := pr
        dsimp only [Option.map] at h
        injection h with h
        cases h
        have hr := ih _ _ hsf
        simp [List.cons_append, hr]

theorem splitFirst_min (m : List Char) :
    ∀ x p0 s0, splitFirst m x = some (p0, s0) →
      ∀ p s, x = p ++ m ++ s → p0.length ≤ p.length := by
  intro x
  induction x with
  | nil =>
    intro p0 s0 h p s _
    unfold splitFirst at h
    split at h
    · injection h with h; cases h; simp
    · exact absurd h (by simp)
  | cons c rest ih =>
    intro p0 s0 h p s hx
    unfold splitFirst at h
    split at h
    · injection h with h; cases h; simp
    · rename_i hm
      cases hsf : splitFirst m rest with
      | none => rw [hsf] at h; exact absurd h (by simp)
      | some pr =>
        rw [hsf] at h
        obtain ⟨p', s'⟩ := pr
        dsimp only [Option.map] at h
        injection h with h
        cases h
        cases p with
        | nil =>
          exfalso
          apply hm
          rw [List.isPrefixOf_iff_prefix]
          exact ⟨s, by simpa using hx.symm⟩
        | cons a p'' =>
          have hx' : c :: rest = a :: (p'' ++ m ++ s) := by simpa using hx
          injection hx' with h1 h2
          simp only [List.length_cons, Nat.succ_le_succ_iff]
          exact ih _ _ hsf p'' s h2

theorem splitFirst_isSome_append (m : List Char) :
    ∀ p s, (splitFirst m (p ++ m ++ s)).isSome := by
  intro p
  induction p with
  | nil =>
    intro s
    have hpre : m.isPrefixOf (m ++ s) := by
      rw [List.isPrefixOf_iff_prefix]; exact List.prefix_append m s
    show (splitFirst m ([] ++ m ++ s)).isSome
    simp only [List.nil_append]
    cases hms : m ++ s with
    | nil =>
      rw [hms] at hpre
      unfold splitFirst
      simp [hpre]
    | cons c rest =>
      rw [hms] at hpre
      unfold splitFirst
      simp [hpre]
  | cons c p' ih =>
    intro s
    have hsh : (c :: p') ++ m ++ s = c :: (p' ++ m ++ s) := by simp
    rw [hsh]
    unfold splitFirst
    split
    · simp
    · have hs := ih s
      cases hsf : splitFirst m (p' ++ m ++ s) with
      | none => rw [hsf] at hs; simp at hs
      | some pr => simp [hsf]

theorem occursSub_append (m p s : List Char) : occursSub m (p ++ m ++ s) = true := by
  unfold occursSub
  exact splitFirst_isSome_append m p s

theorem splitFirst_eq_none_of_not_occurs (m x : List Char)
    (h : occursSub m x = false) : splitFirst m x = none := by
  unfold occursSub at h
  cases hs : splitFirst m x with
  | none => rfl
  | some pr => rw [hs] at h; simp at h

theorem afterLastAux_not_occurs (m s : List Char)
    (h : occursSub m s = false) : ∀ fuel, afterLastAux m fuel s = s := by
  intro fuel
  cases fuel with
  | zero => rfl
  | succ n =>
    unfold afterLastAux
    rw [splitFirst_eq_none_of_not_occurs m s h]

/-- Two overlapping occurrences of `d` at distance `0 < k < d.length` force a
border of `d` (a proper nonempty suffix equal to a prefix). -/
theorem overlap_border (d q s0 s : List Char) (hq0 : 0 < q.length)
    (hqd : q.length < d.length) (h : d ++ s0 = q ++ (d ++ s)) :
    d.drop q.length = d.take (d.length - q.length) := by
  have htake : d = q ++ d.take (d.length - q.length) := by
    have h3 : (d ++ s).take (d.length - q.length) = d.take (d.length - q.length) :=
      List.take_append_of_le_length (Nat.sub_le _ _)
    have hc := congrArg (fun l => List.take d.length l) h
    simp only at hc
    rw [List.take_left, List.take_append_eq_append_take,
      List.take_of_length_le (le_of_lt hqd), h3] at hc
    exact hc
  calc d.drop q.length = (q ++ d.take (d.length - q.length)).drop q.length := by
        rw [← htake]
    _ = d.take (d.length - q.length) := List.drop_left q _

theorem answerDelim_length : answerDelim.length = 13 := by decide

/-- The marker `"The answer is"` has no border: distinct occurrences of it in
one string can never overlap. -/
theorem answerDelim_borderless :
    ∀ k, k < answerDelim.length → 0 < k →
      ¬ answerDelim.drop k = answerDelim.take (answerDelim.length - k) := by
  decide

/-- The split-last iteration lands exactly on the suffix after the last
occurrence of the marker: whenever `x = p ++ marker ++ s` with no further
occurrence inside `s`, it computes `s`. -/
theorem afterLastAux_decomp :
    ∀ fuel x p s, x.length ≤ fuel → x = p ++ answerDelim ++ s →
      occursSub answerDelim s = false → afterLastAux answerDelim fuel x = s := by
  intro fuel
  induction fuel with
  | zero =>
    intro x p s hlen hx _
    exfalso
    have hL := congrArg List.length hx
    simp only [List.length_append] at hL
    have h13 : answerDelim.length = 13 := answerDelim_length
    omega
  | succ n ih =>
    intro x p s hlen hx hocc
    unfold afterLastAux
    have hsome : (splitFirst answerDelim x).isSome := by
      rw [hx]; exact splitFirst_isSome_append answerDelim p s
    obtain ⟨⟨p0, s0⟩, hsf⟩ := Option.isSome_iff_exists.mp hsome
    rw [hsf]
    have hdec : x = p0 ++ answerDelim ++ s0 := splitFirst_eq answerDelim x p0 s0 hsf
    have hmin : p0.length ≤ p.length := splitFirst_min answerDelim x p0 s0 hsf p s hx
    have hxlen : x.length = p0.length + answerDelim.length + s0.length := by
      have hL := congrArg List.length hdec
      simp only [List.length_append] at hL
      omega
    rcases Nat.lt_or_ge p0.length p.length with hlt | hge
    · have hq : answerDelim ++ s0 = p.drop p0.length ++ (answerDelim ++ s) := by
        have h1 : x.drop p0.length = answerDelim ++ s0 := by
          rw [hdec, List.append_assoc, List.drop_left]
        have h2 : x.drop p0.length = p.drop p0.length ++ (answerDelim ++ s) := by
          conv_lhs => rw [hx]
          rw [List.append_assoc, List.drop_append_of_le_length (le_of_lt hlt)]
        rw [← h1, h2]
      have hqlen : 0 < (p.drop p0.length).length := by
        rw [List.length_drop]; omega
      have hdk : answerDelim.length ≤ (p.drop p0.length).length := by
        by_contra hcon
        push_neg at hcon
        exact answerDelim_borderless (p.drop p0.length).length hcon hqlen
          (overlap_border answerDelim (p.drop p0.length) s0 s hqlen hcon hq)
      have hs0 : s0 = ((p.drop p0.length).drop answerDelim.length) ++ answerDelim ++ s := by
        have h1 : (answerDelim ++ s0).drop answerDelim.length = s0 := List.drop_left _ _
        have h2 : (p.drop p0.length ++ (answerDelim ++ s)).drop answerDelim.length
            = (p.drop p0.length).drop answerDelim.length ++ (answerDelim ++ s) :=
          List.drop_append_of_le_length hdk
        rw [← h1, hq, h2, List.append_assoc]
      have hlen0 : s0.length ≤ n := by
        have h13 : answerDelim.length = 13 := answerDelim_length
        omega
      exact ih s0 _ s hlen0 hs0 hocc
    · have hlen_eq : p0.length = p.length := Nat.le_antisymm hmin hge
      have hcat : p0 ++ (answerDelim ++ s0) = p ++ (answerDelim ++ s) := by
        rw [← List.append_assoc, ← hdec, hx, List.append_assoc]
      have hinj := List.append_inj hcat hlen_eq
      have hs0 : s0 = s := List.append_cancel_left hinj.2
      rw [hs0]
      exact afterLastAux_not_occurs answerDelim s hocc n

theorem pySplitLast_decomp (x p s : List Char) (hx : x = p ++ answerDelim ++ s)
    (hocc : occursSub answerDelim s = false) : pySplitLast answerDelim x = s :=
  afterLastAux_decomp x.length x p s (le_refl _) hx hocc

theorem matchNum_nil : matchNum [] = none := by decide

theorem findNumbersAux_eq_nil_imp :
    ∀ fuel x, x.length ≤ fuel → findNumbersAux fuel x = [] →
      ∀ t, t <:+ x → matchNum t = none := by
  intro fuel
  induction fuel with
  | zero =>
    intro x hlen _ t ht
    have hx : x = [] := List.length_eq_zero.mp (Nat.le_zero.mp hlen)
    subst hx
    rw [List.suffix_nil.mp ht]
    exact matchNum_nil
  | succ n ih =>
    intro x hlen h t ht
    cases x with
    | nil =>
      rw [List.suffix_nil.mp ht]
      exact matchNum_nil
    | cons c rest =>
      unfold findNumbersAux at h
      cases hm : matchNum (c :: rest) with
      | some pr => rw [hm] at h; exact absurd h (by simp)
      | none =>
        rw [hm] at h
        rcases List.suffix_cons_iff.mp ht with h1 | h2
        · rw [h1]; exact hm
        · refine ih rest ?_ h t h2
          simp only [List.length_cons] at hlen
          omega

theorem findNumbersAux_eq_nil_of :
    ∀ fuel x, (∀ t, t <:+ x → matchNum t = none) → findNumbersAux fuel x = [] := by
  intro fuel
  induction fuel with
  | zero => intro x _; rfl
  | succ n ih =>
    intro x h
    cases x with
    | nil => rfl
    | cons c rest =>
      unfold findNumbersAux
      rw [h (c :: rest) List.suffix_rfl]
      exact ih rest (fun t ht => h t (ht.trans (List.suffix_cons c rest)))

/-- A string with no number has no number in any of its suffixes. -/
theorem find_numbers_nil_suffix (x s : List Char) (hs : s <:+ x)
    (h : find_numbers x = []) : find_numbers s = [] := by
  unfold find_numbers at h ⊢
  exact findNumbersAux_eq_nil_of s.length s
    (fun t ht => findNumbersAux_eq_nil_imp x.length x (le_refl _) h t (ht.trans hs))

theorem afterLastAux_suffix (m : List Char) :
    ∀ fuel x, afterLastAux m fuel x <:+ x := by
  intro fuel
  induction fuel with
  | zero => intro x; exact List.suffix_rfl
  | succ n ih =>
    intro x
    unfold afterLastAux
    cases hsf : splitFirst m x with
    | none => exact List.suffix_rfl
    | some pr =>
      obtain ⟨p0, s0⟩ := pr
      have hx := splitFirst_eq m x p0 s0 hsf
      exact (ih s0).trans ⟨p0 ++ m, hx.symm⟩

/-- **C4.** `extract_answer` with method `find_number` strips commas from
`find_number`, which returns: when the marker `"The answer is"` occurs, the
first number of the substring after the marker's last occurrence (falling
back to the last number of the whole string when that substring holds no
number); when the marker does not occur, the last number anywhere in the
string; and the empty string when the string contains no number.
Concretely, `"The answer is 5,600 dollars"` yields `"5600"` and
`"no marker here, 3 apples and 42 oranges"` yields `"42"`. -/
theorem claim_C4 :
    (∀ (ms : List (List Char → Option (List Char))) (nz mx : List Char → List Char)
        (x : List Char),
      extract_answer ms nz mx x [("method", "find_number")] =
        maybe_remove_comma (find_number x)) ∧
    (∀ x p s, x = p ++ answerDelim ++ s → occursSub answerDelim s = false →
      find_number x = (match find_numbers s with
        | n :: _ => n
        | [] => ((find_numbers x).getLast?).getD [])) ∧
    (∀ x, occursSub answerDelim x = false →
      find_number x = ((find_numbers x).getLast?).getD []) ∧
    (∀ x, find_numbers x = [] → find_number x = []) ∧
    extract_answer [] id id "The answer is 5,600 dollars".toList
      [("method", "find_number")] = "5600".toList ∧
    extract_answer [] id id "no marker here, 3 apples and 42 oranges".toList
      [("method", "find_number")] = "42".toList := by
  refine ⟨?_, ?_, ?_, ?_, by decide, by decide⟩
  · intro ms nz mx x
    rfl
  · intro x p s hx hocc
    have hoc : occursSub answerDelim x = true := by
      rw [hx]; exact occursSub_append answerDelim p s
    have hps := pySplitLast_decomp x p s hx hocc
    simp only [find_number, hoc, if_true, hps]
    cases hfs : find_numbers s with
    | nil =>
      cases hgl : (find_numbers x).getLast? with
      | none => simp [hgl]
      | some n => simp [hgl]
    | cons n ns => simp
  · intro x hocc
    simp only [find_number, hocc, Bool.false_eq_true, if_false]
    cases hgl : (find_numbers x).getLast? with
    | none => simp [hgl]
    | some n => simp [hgl]
  · intro x h
    by_cases hoc : occursSub answerDelim x = true
    · have hsub : find_numbers (pySplitLast answerDelim x) = [] :=
        find_numbers_nil_suffix x _ (afterLastAux_suffix answerDelim x.length x) h
      simp [find_number, hoc, hsub, h]
    · have hoc' : occursSub answerDelim x = false := by
        cases hb : occursSub answerDelim x with
        | false => rfl
        | true => exact absurd hb hoc
      simp [find_number, hoc', h]

/-- Witness for C4: the marker-decomposition part applied to the concrete
response `"The answer is 5,600 dollars"` with `p = ""` and
`s = " 5,600 dollars"`. -/
theorem claim_C4_witness :
    ("The answer is 5,600 dollars".toList
        = [] ++ answerDelim ++ " 5,600 dollars".toList) ∧
    occursSub answerDelim " 5,600 dollars".toList = false ∧
    find_number "The answer is 5,600 dollars".toList =
      (match find_numbers " 5,600 dollars".toList with
        | n :: _ => n
        | [] => ((find_numbers "The answer is 5,600 dollars".toList).getLast?).getD []) :=
  ⟨by decide, by decide,
    claim_C4.2.1 "The answer is 5,600 dollars".toList [] " 5,600 dollars".toList
      (by decide) (by decide)⟩

/-! ### The `mcq` extraction loop -/

theorem mcqScan_all_none (nz : List Char → List Char) :
    ∀ (ms : List (List Char → Option (List Char))) (x : List Char),
      (∀ f ∈ ms, f x = none) → mcqScan nz ms x = x := by
  intro ms
  induction ms with
  | nil => intro x _; rfl
  | cons f fs ih =>
    intro x h
    unfold mcqScan
    rw [h f (List.mem_cons_self f fs)]
    exact ih x (fun f' hf' => h f' (List.mem_cons_of_mem f hf'))

theorem mcqScan_first_hit (nz : List Char → List Char) :
    ∀ (pre : List (List Char → Option (List Char))) (f : List Char → Option (List Char))
      (rest : List (List Char → Option (List Char))) (x g : List Char),
      (∀ f' ∈ pre, f' x = none) → f x = some g →
      mcqScan nz (pre ++ f :: rest) x = nz g := by
  intro pre
  induction pre with
  | nil =>
    intro f rest x g _ hf
    rw [List.nil_append]
    unfold mcqScan
    rw [hf]
  | cons f0 pre' ih =>
    intro f rest x g hpre hf
    show mcqScan nz (f0 :: (pre' ++ f :: rest)) x = nz g
    unfold mcqScan
    rw [hpre f0 (List.mem_cons_self f0 pre')]
    exact ih f rest x g (fun f' hf' => hpre f' (List.mem_cons_of_mem f0 hf')) hf

/-- **C5.** `extract_answer` with method `mcq`: when none of the multilingual
answer matchers hits the response, the raw response text is returned
unchanged (not a normalized or empty answer); when some matcher hits, the
result is the normalized first capture of the first hitting matcher in
declared order. -/
theorem claim_C5 :
    (∀ (ms : List (List Char → Option (List Char))) (nz mx : List Char → List Char)
        (x : List Char),
      (∀ f ∈ ms, f x = none) →
      extract_answer ms nz mx x [("method", "mcq")] = x) ∧
    (∀ (pre : List (List Char → Option (List Char))) (f : List Char → Option (List Char))
        (rest : List (List Char → Option (List Char))) (nz mx : List Char → List Char)
        (x g : List Char),
      (∀ f' ∈ pre, f' x = none) → f x = some g →
      extract_answer (pre ++ f :: rest) nz mx x [("method", "mcq")] = nz g) := by
  constructor
  · intro ms nz mx x h
    show mcqScan nz ms x = x
    exact mcqScan_all_none nz ms x h
  · intro pre f rest nz mx x g hpre hf
    show mcqScan nz (pre ++ f :: rest) x = nz g
    exact mcqScan_first_hit nz pre f rest x g hpre hf

/-- Witness for C5: a response no matcher hits is returned verbatim, and a
response whose first matcher captures `"B"` yields the normalized capture. -/
theorem claim_C5_witness :
    extract_answer [] id id "no matcher hits this".toList [("method", "mcq")]
        = "no matcher hits this".toList ∧
    extract_answer [fun _ => some "B".toList] id id "Answer: B".toList
        [("method", "mcq")] = id "B".toList :=
  ⟨claim_C5.1 [] id id "no matcher hits this".toList (by intro f hf; simp at hf),
    claim_C5.2 [] (fun _ => some "B".toList) [] id id "Answer: B".toList "B".toList
      (by intro f hf; simp at hf) rfl⟩

/-- **C6.** `evaluate_answer` with method `numeric` compares the two strings
as parsed floats when both parse, and falls back to exact string equality
when either fails to parse; `"5"` vs `"5.0"` is judged correct and `"5"` vs
`"five"` incorrect. -/
theorem claim_C6 :
    (∀ (R : List Char → List Char) (E : List Char → List Char → List Char)
        (N : List Char → List Char) (a b : List Char) (qa qb : PyFloat),
      parseFloat a = some qa → parseFloat b = some qb →
      evaluate_answer R E N a b [("method", "numeric")] = pyFloatEq qa qb) ∧
    (∀ (R : List Char → List Char) (E : List Char → List Char → List Char)
        (N : List Char → List Char) (a b : List Char),
      parseFloat a = none ∨ parseFloat b = none →
      evaluate_answer R E N a b [("method", "numeric")] = decide (a = b)) ∧
    (∀ (R : List Char → List Char) (E : List Char → List Char → List Char)
        (N : List Char → List Char),
      evaluate_answer R E N "5".toList "5.0".toList [("method", "numeric")] = true ∧
      evaluate_answer R E N "5".toList "five".toList [("method", "numeric")] = false) := by
  refine ⟨?_, ?_, ?_⟩
  · intro R E N a b qa qb ha hb
    show (match parseFloat a, parseFloat b with
      | some a', some b' => pyFloatEq a' b'
      | _, _ => decide (a = b)) = pyFloatEq qa qb
    rw [ha, hb]
  · intro R E N a b h
    show (match parseFloat a, parseFloat b with
      | some a', some b' => pyFloatEq a' b'
      | _, _ => decide (a = b)) = decide (a = b)
    rcases h with h | h
    · rw [h]
    · rw [h]
      cases parseFloat a <;> rfl
  · intro R E N
    constructor
    · show (match parseFloat "5".toList, parseFloat "5.0".toList with
        | some a', some b' => pyFloatEq a' b'
        | _, _ => decide ("5".toList = "5.0".toList)) = true
      decide
    · show (match parseFloat "5".toList, parseFloat "five".toList with
        | some a', some b' => pyFloatEq a' b'
        | _, _ => decide ("5".toList = "five".toList)) = false
      decide

/-- Witness for C6: the parsed-float branch applied at `"5"` and `"5.0"`,
whose parsed values are cross-multiplication equal. -/
theorem claim_C6_witness :
    parseFloat "5".toList = some (.finite 5 1) ∧
    parseFloat "5.0".toList = some (.finite 50 10) ∧
    evaluate_answer id (fun a _ => a) id "5".toList "5.0".toList
        [("method", "numeric")] = pyFloatEq (.finite 5 1) (.finite 50 10) ∧
    pyFloatEq (.finite 5 1) (.finite 50 10) = true :=
  ⟨by decide, by decide,
    claim_C6.1 id (fun a _ => a) id "5".toList "5.0".toList (.finite 5 1) (.finite 50 10)
      (by decide) (by decide),
    by decide⟩

/-! ### The evaluation loop and its aggregates -/

theorem finalizeMetrics_ok (mp : Bool) (total : Nat) (st : EvalLoopState) (m : EvalMetrics)
    (h : finalizeMetrics mp total st = .ok m) :
    m.accuracy = PyFloat.finite m.correct_predictions m.total_samples ∧
    m.total_samples = total ∧ ¬ total = 0 := by
  unfold finalizeMetrics at h
  split at h
  · exact absurd h (by simp)
  · rename_i htot
    split at h
    · split at h
      · split at h
        · injection h with h
          subst h
          exact ⟨rfl, rfl, htot⟩
        · exact absurd h (by simp)
      · exact absurd h (by simp)
    · injection h with h
      subst h
      exact ⟨rfl, rfl, htot⟩

/-- **C2.** `evaluate_on_dataset` on a dataset with zero examples reaches the
final `correct / total` and fails with a division-by-zero error (the
zero-total case is not guarded); whenever it returns, the dataset was
non-empty, the reported sample count is the dataset size and the returned
accuracy is exactly `correct / total`. -/
theorem claim_C2 (O : EvalOracle) (dataset : List Problem) (cfg : TaskConfig)
    (batch_size : Nat) (subject : Option String)
    (mapping : Option (List (String × String)))
    (cc ct : Option (List (String × Nat))) :
    (dataset = [] →
      evaluate_on_dataset O dataset cfg batch_size subject mapping cc ct
        = .error "ZeroDivisionError: division by zero") ∧
    (∀ m, evaluate_on_dataset O dataset cfg batch_size subject mapping cc ct = .ok m →
      m.accuracy = PyFloat.finite m.correct_predictions m.total_samples ∧
      m.total_samples = dataset.length ∧ ¬ dataset = []) := by
  constructor
  · intro hemp
    subst hemp
    rfl
  · intro m hok
    unfold evaluate_on_dataset at hok
    dsimp only at hok
    split at hok
    · exact absurd hok (by simp)
    · obtain ⟨ha, ht, hnz⟩ := finalizeMetrics_ok _ _ _ _ hok
      refine ⟨ha, ht, fun hemp => hnz ?_⟩
      rw [hemp]
      rfl

/-- Witness for C2: the one-example fixture run returns, with accuracy
`1 / 1` and sample count `1`; and the zero-example instance of the same call
is the division-by-zero error. -/
theorem claim_C2_witness :
    evaluate_on_dataset cOracle [] c3cfg 10 none none none none
        = .error "ZeroDivisionError: division by zero" ∧
    evaluate_on_dataset cOracle [⟨[("ans", "5")]⟩] c3cfg 10 none none none none
        = .ok c2metrics ∧
    (c2metrics.accuracy = PyFloat.finite c2metrics.correct_predictions c2metrics.total_samples ∧
     c2metrics.total_samples = [Problem.mk [("ans", "5")]].length ∧
     ¬ [Problem.mk [("ans", "5")]] = []) := by
  have hok : evaluate_on_dataset cOracle [⟨[("ans", "5")]⟩] c3cfg 10 none none none none
      = .ok c2metrics := by decide
  exact ⟨(claim_C2 cOracle [] c3cfg 10 none none none none).1 rfl, hok,
    (claim_C2 cOracle [⟨[("ans", "5")]⟩] c3cfg 10 none none none none).2 c2metrics hok⟩

theorem dhasKey_append {β : Type} (d e : List (String × β)) (k : String) :
    dhasKey (d ++ e) k = (dhasKey d k || dhasKey e k) := by
  simp [dhasKey, List.any_append]

theorem dinsert_fresh {β : Type} (d : List (String × β)) (k : String) (v : β)
    (h : dhasKey d k = false) : dinsert d k v = d ++ [(k, v)] := by
  simp [dinsert, h]

/-- The per-subset loop appends one `subset_metrics` entry per (fresh)
subset and adds exactly that entry's totals into the running sums. -/
theorem evalSubsets_spec (O : EvalOracle) (loadDS : Option String → List Problem)
    (shuffle : List Problem → List Problem) (cfg : TaskConfig)
    (bs : Nat) (ns : Option Nat) (mapping : Option (List (String × String))) :
    ∀ (subs : List String) (tc ts : Nat) (sm : List (String × EvalMetrics))
      (cc ct : Option (List (String × Nat)))
      (out : Nat × Nat × List (String × EvalMetrics) ×
        Option (List (String × Nat)) × Option (List (String × Nat))),
      subs.Nodup →
      (∀ s ∈ subs, dhasKey sm s = false) →
      evalSubsets O loadDS shuffle cfg bs ns mapping subs tc ts sm cc ct = .ok out →
      ∃ ne : List (String × EvalMetrics),
        out.2.2.1 = sm ++ ne ∧
        ne.map Prod.fst = subs ∧
        out.1 = tc + (ne.map (fun e => e.2.correct_predictions)).sum ∧
        out.2.1 = ts + (ne.map (fun e => e.2.total_samples)).sum := by
  intro subs
  induction subs with
  | nil =>
    intro tc ts sm cc ct out _ _ h
    unfold evalSubsets at h
    injection h with h
    subst h
    exact ⟨[], by simp, rfl, by simp, by simp⟩
  | cons sub rest ih =>
    intro tc ts sm cc ct out hnd hfresh h
    unfold evalSubsets at h
    dsimp only at h
    rcases List.nodup_cons.mp hnd with ⟨hsub, hndr⟩
    cases hev : evaluate_on_dataset O (prepDataset loadDS shuffle ns (some sub)) cfg bs
        (some sub) mapping cc ct with
    | error e => rw [hev] at h; exact absurd h (by simp)
    | ok m =>
      rw [hev] at h
      have hfreshsub : dhasKey sm sub = false := hfresh sub (List.mem_cons_self sub rest)
      have hfresh' : ∀ s ∈ rest, dhasKey (dinsert sm sub m) s = false := by
        intro s hs
        have h1 : dhasKey sm s = false := hfresh s (List.mem_cons_of_mem sub hs)
        have hne : ¬ sub = s := fun heq => hsub (heq ▸ hs)
        rw [dinsert_fresh sm sub m hfreshsub, dhasKey_append, h1]
        simp [dhasKey, hne]
      obtain ⟨ne, hsm, hkeys, htc, hts⟩ := ih _ _ _ _ _ out hndr hfresh' h
      refine ⟨(sub, m) :: ne, ?_, ?_, ?_, ?_⟩
      · rw [hsm, dinsert_fresh sm sub m hfreshsub, List.append_assoc]
        rfl
      · simp [hkeys]
      · rw [htc]; simp; omega
      · rw [hts]; simp; omega

/-- **C3 (amended).** For a task config whose `dataset_subsets` is a list of
*distinct* subset names, when `evaluate_model_on_dataset` returns, the result
holds one `subset_metrics` entry per listed subset in order, its
`total_samples` and `correct_predictions` are the sums of the per-subset
totals and corrects, and its accuracy is combined correct over combined
total (the integer `0` when the combined total is 0).  Without distinctness
the claim fails: a repeated subset collapses to one `subset_metrics` entry
while the running sums count every evaluation. -/
theorem claim_C3 (O : EvalOracle) (loadDS : Option String → List Problem)
    (shuffle : List Problem → List Problem) (cfg : TaskConfig)
    (bs : Nat) (ns : Option Nat) (subs : List String) (r : MultiResults)
    (hsubs : cfg.dataset_subsets = .listOf subs)
    (hnd : subs.Nodup)
    (hok : evaluate_model_on_dataset O loadDS shuffle cfg bs ns = .ok (.multi r)) :
    r.subset_metrics.map Prod.fst = subs ∧
    r.correct_predictions = (r.subset_metrics.map (fun e => e.2.correct_predictions)).sum ∧
    r.total_samples = (r.subset_metrics.map (fun e => e.2.total_samples)).sum ∧
    r.accuracy = (if 0 < r.total_samples
      then PyFloat.finite r.correct_predictions r.total_samples
      else PyFloat.finite 0 1) := by
  unfold evaluate_model_on_dataset at hok
  split at hok
  · exact absurd hok (by simp)
  · rw [hsubs] at hok
    dsimp only at hok
    cases hes : evalSubsets O loadDS shuffle cfg bs ns cfg.subject_category_mapping subs 0 0 []
        (if mappingTruthy cfg.subject_category_mapping then
            (some (initCats (cfg.subject_category_mapping.getD [])),
             some (initCats (cfg.subject_category_mapping.getD [])))
          else (none, none)).1
        (if mappingTruthy cfg.subject_category_mapping then
            (some (initCats (cfg.subject_category_mapping.getD [])),
             some (initCats (cfg.subject_category_mapping.getD [])))
          else (none, none)).2 with
    | error e => rw [hes] at hok; exact absurd hok (by simp)
    | ok out =>
      rw [hes] at hok
      obtain ⟨tc, ts, sm, cc, ct⟩ := out
      obtain ⟨ne, hsm, hkeys, htc, hts⟩ :=
        evalSubsets_spec O loadDS shuffle cfg bs ns cfg.subject_category_mapping subs
          0 0 [] _ _ _ hnd (fun s _ => rfl) hes
      simp only [List.nil_append] at hsm
      dsimp only at hok hsm htc hts
      subst hsm
      split at hok
      · split at hok
        · split at hok
          · injection hok with hok
            cases hok
            refine ⟨hkeys, by simpa using htc, by simpa using hts, rfl⟩
          · exact absurd hok (by simp)
        · exact absurd hok (by simp)
      · injection hok with hok
        cases hok
        refine ⟨hkeys, by simpa using htc, by simpa using hts, rfl⟩

/-- **C3 — counterexample.** With subset `A` (5 examples, 3 correct) listed
twice, the run returns: the subset-metrics mapping holds one entry, not one
per listed subset, and `total_samples = 10` is not the sum `5` of the
per-subset totals read from the mapping (nor is `correct_predictions = 6`
the sum `3`). -/
theorem claim_C3_counterexample :
    c3dupCfg.dataset_subsets = SubsetSpec.listOf ["A", "A"] ∧
    evaluate_model_on_dataset cOracle c3load id c3dupCfg 10 none
      = .ok (.multi c3dupExpected) ∧
    c3dupExpected.subset_metrics.map Prod.fst = ["A"] ∧
    ¬ c3dupExpected.subset_metrics.map Prod.fst = ["A", "A"] ∧
    c3dupExpected.total_samples = 10 ∧
    (c3dupExpected.subset_metrics.map (fun e => e.2.total_samples)).sum = 5 ∧
    ¬ (10 : Nat) = 5 := by
  refine ⟨rfl, by decide, by decide, by decide, rfl, by decide, by decide⟩

/-- Witness for C3: the `[A, B]` fixture (3/5 and 4/5 correct) run through
the amended theorem — one entry per subset, sums `7` and `10`, combined
accuracy the float `7 / 10 = 0.7`. -/
theorem claim_C3_witness :
    evaluate_model_on_dataset cOracle c3load id c3cfg 10 none
      = .ok (.multi c3expected) ∧
    (c3expected.subset_metrics.map Prod.fst = ["A", "B"] ∧
     c3expected.correct_predictions
       = (c3expected.subset_metrics.map (fun e => e.2.correct_predictions)).sum ∧
     c3expected.total_samples
       = (c3expected.subset_metrics.map (fun e => e.2.total_samples)).sum ∧
     c3expected.accuracy = (if 0 < c3expected.total_samples
       then PyFloat.finite c3expected.correct_predictions c3expected.total_samples
       else PyFloat.finite 0 1)) ∧
    pyFloatEq c3expected.accuracy (.finite 7 10) = true := by
  have hok : evaluate_model_on_dataset cOracle c3load id c3cfg 10 none
      = .ok (.multi c3expected) := by decide
  exact ⟨hok,
    claim_C3 cOracle c3load id c3cfg 10 none ["A", "B"] c3expected rfl (by decide) hok,
    by decide⟩

/-! ### The node-type schema endpoint -/

theorem mapExcept_eq_map {α β : Type} (f : α → Except String β) (g : α → β) :
    ∀ l, (∀ a ∈ l, f a = .ok (g a)) → mapExcept f l = .ok (l.map g) := by
  intro l
  induction l with
  | nil => intro _; rfl
  | cons a t ih =>
    intro h
    unfold mapExcept
    rw [h a (List.mem_cons_self a t), ih (fun x hx => h x (List.mem_cons_of_mem a hx))]
    rfl

theorem mapExcept_ok_mem {α β : Type} (f : α → Except String β) :
    ∀ l out, mapExcept f l = .ok out → ∀ a ∈ l, ∃ b, f a = .ok b := by
  intro l
  induction l with
  | nil => intro out _ a ha; exact absurd ha (by simp)
  | cons c t ih =>
    intro out h a ha
    unfold mapExcept at h
    cases hf : f c with
    | error e => rw [hf] at h; exact absurd h (by simp)
    | ok b =>
      rw [hf] at h
      cases hm : mapExcept f t with
      | error e => rw [hm] at h; exact absurd h (by simp)
      | ok bs =>
        rcases List.mem_cons.mp ha with rfl | hmem
        · exact ⟨b, hf⟩
        · exact ih bs hm a hmem

/-- **C7.** When every node class carries a config model, the
`/supported_types/` handler returns one top-level key per group, each with
one record per registered node type, where a missing input model yields an
empty object for `input` (not an error) and likewise for `output`, and
`config` is always the config model's schema; a node class without a config
model makes the handler fail. -/
theorem claim_C7 (node_groups : List (String × List NodeTypeEntry)) :
    ((∀ g ∈ node_groups, ∀ nt ∈ g.2, (nt.node_class.config_model).isSome) →
      get_node_types node_groups
        = .ok (node_groups.map (fun g => (g.1, g.2.map nodeRecordOf)))) ∧
    ((∃ g ∈ node_groups, ∃ nt ∈ g.2, nt.node_class.config_model = none) →
      ∃ e, get_node_types node_groups = .error e) := by
  constructor
  · intro hall
    unfold get_node_types
    apply mapExcept_eq_map _ (fun (g : String × List NodeTypeEntry) => (g.1, g.2.map nodeRecordOf))
    intro g hg
    have hin : mapExcept nodeSchema g.2 = .ok (g.2.map nodeRecordOf) := by
      apply mapExcept_eq_map
      intro nt hnt
      have hcfg := hall g hg nt hnt
      unfold nodeSchema nodeRecordOf
      cases hc : nt.node_class.config_model with
      | none => rw [hc] at hcfg; exact absurd hcfg (by simp)
      | some s => rfl
    rw [hin]
    rfl
  · rintro ⟨g, hg, nt, hnt, hnone⟩
    cases hres : get_node_types node_groups with
    | error e => exact ⟨e, rfl⟩
    | ok out =>
      exfalso
      unfold get_node_types at hres
      obtain ⟨pair, hpair⟩ := mapExcept_ok_mem _ node_groups out hres g hg
      cases hin : mapExcept nodeSchema g.2 with
      | error e =>
        rw [hin] at hpair
        exact absurd hpair (by simp [Except.map])
      | ok recs =>
        obtain ⟨b, hb⟩ := mapExcept_ok_mem nodeSchema g.2 recs hin nt hnt
        unfold nodeSchema at hb
        rw [hnone] at hb
        exact absurd hb (by simp)

/-- Witness for C7: a concrete registry with two groups and a node class
lacking input and output models; the response pairs every group with its
records and the model-less schemas are empty objects. -/
theorem claim_C7_witness :
    (∀ g ∈ c7groups, ∀ nt ∈ g.2, (nt.node_class.config_model).isSome) ∧
    get_node_types c7groups
      = .ok (c7groups.map (fun g => (g.1, g.2.map nodeRecordOf))) ∧
    get_node_types c7groups
      = .ok [("llm",
              [⟨"BasicLLMNode", c7schema, c7schema, c7schema⟩,
               ⟨"NoIONode", Json.obj [], Json.obj [], c7schema⟩]),
             ("python",
              [⟨"PythonFuncNode", c7schema, Json.obj [], c7schema⟩])] :=
  ⟨by decide, (claim_C7 c7groups).1 (by decide), rfl⟩

/-! ### The LLM utility library -/

/-- **C8.** `compute_embeddings` with no text extractor and at least one
non-string document returns an empty result without raising; with an
extractor, or with all-string documents, it returns exactly one row per
input document in input order, a document whose embedding call fails
contributing a zero vector of the configured dimensionality instead of
aborting the batch. -/
theorem claim_C8 (getEmb : String → Option (List PyFloat)) (docs : List PyDoc) (dims : Nat) :
    ((∃ d ∈ docs, PyDoc.isStr d = false) →
      compute_embeddings getEmb docs dims none = []) ∧
    (∀ f, compute_embeddings getEmb docs dims (some f)
        = docs.map (fun d => match getEmb (f d) with
            | some emb => emb
            | none => List.replicate dims (PyFloat.finite 0 1))) ∧
    (docs.all PyDoc.isStr = true →
      compute_embeddings getEmb docs dims none
        = docs.map (fun d => match getEmb d.text with
            | some emb => emb
            | none => List.replicate dims (PyFloat.finite 0 1))) ∧
    (∀ f, (compute_embeddings getEmb docs dims (some f)).length = docs.length) ∧
    (docs.all PyDoc.isStr = true →
      (compute_embeddings getEmb docs dims none).length = docs.length) := by
  have hmap : ∀ texts : List String,
      (texts.map (fun t => match getEmb t with
        | some emb => emb
        | none => List.replicate dims (PyFloat.finite 0 1))).length = texts.length :=
    fun texts => List.length_map _ _
  refine ⟨?_, ?_, ?_, ?_, ?_⟩
  · rintro ⟨d, hd, hds⟩
    have hall : docs.all PyDoc.isStr = false := by
      cases hb : docs.all PyDoc.isStr with
      | false => rfl
      | true => exact absurd (List.all_eq_true.mp hb d hd) (by simp [hds])
    simp [compute_embeddings, hall]
  · intro f
    simp [compute_embeddings, List.map_map]
  · intro h
    simp [compute_embeddings, h, List.map_map]
  · intro f
    simp [compute_embeddings, List.map_map]
  · intro h
    simp [compute_embeddings, h, List.map_map]

/-- Witness for C8: a three-string batch whose middle embedding call fails
yields three rows, the middle one the zero vector of dimension 2. -/
theorem claim_C8_witness :
    [PyDoc.str "a", PyDoc.str "bad", PyDoc.str "b"].all PyDoc.isStr = true ∧
    compute_embeddings c8emb [PyDoc.str "a", PyDoc.str "bad", PyDoc.str "b"] 2 none
      = [PyDoc.str "a", PyDoc.str "bad", PyDoc.str "b"].map (fun d =>
          match c8emb d.text with
          | some emb => emb
          | none => List.replicate 2 (PyFloat.finite 0 1)) ∧
    compute_embeddings c8emb [PyDoc.str "a", PyDoc.str "bad", PyDoc.str "b"] 2 none
      = [[PyFloat.finite 1 1, PyFloat.finite 2 1],
         [PyFloat.finite 0 1, PyFloat.finite 0 1],
         [PyFloat.finite 1 1, PyFloat.finite 2 1]] :=
  ⟨by decide, (claim_C8 c8emb [PyDoc.str "a", PyDoc.str "bad", PyDoc.str "b"] 2).2.2.1
      (by decide), by decide⟩

theorem appendTextToLast_concat (l : List PartMessage) (m : PartMessage) (t : String) :
    appendTextToLast (l ++ [m]) t = l ++ [⟨m.role, m.content ++ [.text t]⟩] := by
  unfold appendTextToLast
  rw [List.getLast?_concat, List.dropLast_concat]

/-- **C9 — counterexample.** `create_messages_with_images` does *not* mirror
the one-user-then-one-assistant shape per few-shot example: with a single
example it emits a text user message, an image user message and an assistant
message (roles `system, user, user, assistant, user` in total), not a single
user/assistant pair. -/
theorem claim_C9_counterexample :
    (create_messages_with_images "sys" "IMG" "hi"
        (some [⟨"in", "out", "ex-img"⟩]) none).map PartMessage.role
      = ["system", "user", "user", "assistant", "user"] ∧
    ¬ (create_messages_with_images "sys" "IMG" "hi"
        (some [⟨"in", "out", "ex-img"⟩]) none).map PartMessage.role
      = ["system", "user", "assistant", "user"] := by
  refine ⟨by decide, by decide⟩

/-- **C9 (amended).** `create_messages` returns, in order, one system
message, then for each few-shot example one user message followed by one
assistant message (preserving example order), then the history verbatim,
then a final user message.  `create_messages_with_images` represents the
system message and few-shot turns as typed content-part lists, but emits
*three* messages per few-shot example — a text user message, an image user
message, then the assistant message — followed by the history verbatim and
a final image-reference user turn, which carries a trailing text content
part exactly when the supplied user message string is non-empty. -/
theorem claim_C9 :
    (∀ (s u : String) (fse : Option (List FewShotExample)) (h : Option (List ChatMessage)),
      create_messages s u fse h
        = [⟨"system", s⟩]
          ++ (fse.getD []).bind (fun e => [⟨"user", e.input⟩, ⟨"assistant", e.output⟩])
          ++ h.getD []
          ++ [⟨"user", u⟩]) ∧
    (∀ (s img u : String) (fse : Option (List FewShotExample)) (h : Option (List PartMessage)),
      create_messages_with_images s img u fse h
        = [⟨"system", [.text s]⟩]
          ++ (fse.getD []).bind (fun e =>
              [⟨"user", [.text e.input]⟩, ⟨"user", [.image_url e.img]⟩,
               ⟨"assistant", [.text e.output]⟩])
          ++ h.getD []
          ++ [⟨"user", [ContentPart.image_url img]
                ++ (if ¬ u = "" then [ContentPart.text u] else [])⟩]) := by
  constructor
  · intro s u fse h
    cases fse <;> cases h <;> rfl
  · intro s img u fse h
    unfold create_messages_with_images
    by_cases hu : u = ""
    · subst hu
      cases fse <;> cases h <;> simp
    · rw [if_pos hu, appendTextToLast_concat, if_pos hu]
      cases fse <;> cases h <;> simp [List.append_assoc]

end PySpur
